import Mathlib

/-!
Verification development for the advanced-search engine: a shallow
embedding of the query parser (queryParser.js), the match scorer
(scorer.js) and the search coordinator thunk (searchSlice.js), together
with theorems settling the specification claims about them.

JavaScript conventions used throughout the embedding:
* strings are Lean `String` (lists of characters); the ASCII fragment of
  `toLowerCase`, `trim`, `\s` and `\w` is modelled explicitly;
* numbers are `ℚ` (the scores and weights in the source are small
  decimals; no float-specific behaviour is relied upon);
* `undefined`/missing object fields are `Option`; JS truthiness of a
  string is "not the empty string";
* JS objects used as string-keyed maps, and `Map`, are association
  lists with insert-at-end / update-in-place semantics;
* a thrown exception is `Except.error`;
* `JSON.parse` (a platform builtin, not repository code) is abstracted:
  a participant-summary field carries the parse outcome directly.
-/

namespace AdvSearch

/-! ## JavaScript string primitives -/

/-- The ASCII fragment of the JS `\s` character class. -/
def jsIsSpace (c : Char) : Bool :=
  c = ' ' || c = '\t' || c = '\n' || c = '\r' || c = '\x0b' || c = '\x0c'

/-- The JS `\w` character class: `[A-Za-z0-9_]`. -/
def jsIsWordChar (c : Char) : Bool :=
  c.isAlphanum || c = '_'

/-- `String.prototype.toLowerCase` (ASCII fragment), on character lists. -/
def toLowerL (l : List Char) : List Char :=
  l.map Char.toLower

/-- `String.prototype.toLowerCase` (ASCII fragment). -/
def jsToLower (s : String) : String :=
  ⟨toLowerL s.data⟩

/-- Drop leading JS whitespace. -/
def dropSp (l : List Char) : List Char :=
  l.dropWhile jsIsSpace

/-- `String.prototype.trim` on character lists. -/
def jsTrimL (l : List Char) : List Char :=
  ((dropSp l).reverse.dropWhile jsIsSpace).reverse

/-- `String.prototype.trim`. -/
def jsTrim (s : String) : String :=
  ⟨jsTrimL s.data⟩

/-- `p` is a prefix of `l` (JS `startsWith`, on character lists). -/
def startsWithL : List Char → List Char → Bool
  | [], _ => true
  | _ :: _, [] => false
  | p :: ps, c :: cs => p = c && startsWithL ps cs

/-- `l` contains `sub` as a contiguous substring (JS `includes`). -/
def containsL (sub : List Char) : List Char → Bool
  | [] => startsWithL sub []
  | c :: cs => startsWithL sub (c :: cs) || containsL sub cs

/-- JS `String(x)` on an optional string: `undefined` prints as `"undefined"`. -/
def jsString (o : Option String) : String :=
  match o with
  | some s => s
  | none => "undefined"

/-- JS `a || b` for an optional string `a` and optional fallback:
the empty string is falsy. -/
def jsOrOpt (a b : Option String) : Option String :=
  match a with
  | some s => if s = "" then b else some s
  | none => b

/-- JS `a || b` for an optional string `a` and a string fallback. -/
def jsOrStr (a : Option String) (b : String) : String :=
  match a with
  | some s => if s = "" then b else s
  | none => b

/-- JS `a || b` for strings (the empty string is falsy). -/
def jsOrStrS (a b : String) : String :=
  if a = "" then b else a

/-! ## String-keyed maps (JS objects / `Map`)

JS object property assignment and `Map.set` both update an existing key
in place (keeping its insertion position) and append a fresh key at the
end; property/`Map` iteration order is insertion order. -/

/-- Lookup in a JS object / `Map` modelled as an association list. -/
def getProp {α : Type} : List (String × α) → String → Option α
  | [], _ => none
  | (k1, v1) :: rest, k => if k1 = k then some v1 else getProp rest k

/-- JS `obj[k] = v` / `Map.set`: update in place or append at the end. -/
def setProp {α : Type} : List (String × α) → String → α → List (String × α)
  | [], k, v => [(k, v)]
  | (k1, v1) :: rest, k, v =>
      if k1 = k then (k1, v) :: rest else (k1, v1) :: setProp rest k v

/-- JS `Set.add`: append if not already present. -/
def setAdd (s : List String) (x : String) : List String :=
  if s.contains x then s else s ++ [x]

/-! ## Data model: participants and result items -/

/-- One entry of a 1-1 chat's `recipantssummary`. -/
structure Participant where
  zuid : Option String := none
  dname : Option String := none
deriving DecidableEq

/-- The shape of a decoded `recipantssummary` that the code inspects:
either an array of participants or some non-array JSON value. -/
inductive Json where
  | arr (ps : List Participant)
  | other
deriving DecidableEq

/-- Outcome of `JSON.parse` on a summary string: a value, or a thrown
`SyntaxError`. -/
inductive ParseOutcome where
  | ok (j : Json)
  | failed
deriving DecidableEq

/-- A `recipantssummary` field: a JSON string (carrying the outcome of
`JSON.parse`, which may throw) or an already-structured value. -/
inductive SummaryField where
  | str (parsed : ParseOutcome)
  | jval (j : Json)
deriving DecidableEq

/-- A polymorphic result/record item; every field the engine probes is a
field here, missing/`undefined` modelled by `Option` (or the empty
string for the always-present tag fields). -/
structure Item where
  _module : String := ""
  _source : String := ""
  id : Option String := none
  chatid : Option String := none
  chat_type : Option String := none
  title : Option String := none
  recipantssummary : Option SummaryField := none
  Zuid : Option String := none
  zuid : Option String := none
  full_name : Option String := none
  display_name : Option String := none
  email : Option String := none
  msguid : Option String := none
  score : Option ℚ := none
  _score : ℚ := 0
  _matchType : String := ""
  _matchScore : ℚ := 0
deriving DecidableEq

/-! ## scorer.js -/

/-- The four match-score knobs of `DEFAULT_SCORER_CONFIG.matchScores`. -/
structure MatchScores where
  exact : ℚ
  startsWith : ℚ
  afterSpace : ℚ
  middle : ℚ
deriving DecidableEq

/-- `scorer.js` default config: exact 1.5, startsWith 1.0,
afterSpace 0.6, middle 0.3. -/
def DEFAULT_MATCH_SCORES : MatchScores :=
  ⟨3/2, 1, 3/5, 3/10⟩

structure ScorerConfig where
  matchScores : MatchScores
deriving DecidableEq

def DEFAULT_SCORER_CONFIG : ScorerConfig :=
  ⟨DEFAULT_MATCH_SCORES⟩

/-- A `{type, score}` match record. -/
structure ScoreMatch where
  type : String
  score : ℚ
deriving DecidableEq

/-- `detectMatch(kw, field, scores)` from scorer.js. -/
def detectMatch (kw field : String) (scores : MatchScores) : Option ScoreMatch :=
  if kw = "" ∨ field = "" then none
  else
    let k := jsTrim (jsToLower kw)
    let f := jsTrim (jsToLower field)
    if k = "" ∨ f = "" then none
    else if f = k then some ⟨"exact", scores.exact⟩
    else if startsWithL k.data f.data then some ⟨"startsWith", scores.startsWith⟩
    else if containsL (' ' :: k.data) f.data then some ⟨"afterSpace", scores.afterSpace⟩
    else if containsL k.data f.data then some ⟨"middle", scores.middle⟩
    else none

/-- `bestFieldMatch(kw, fields, scores)`: highest-scoring field match,
first seen wins ties. -/
def bestFieldMatch (kw : String) (fields : List String) (scores : MatchScores) :
    Option ScoreMatch :=
  fields.foldl
    (fun best f =>
      match detectMatch kw f scores with
      | some m =>
          match best with
          | some b => if b.score < m.score then some m else some b
          | none => some m
      | none => best)
    none

/-- `scoreQuery(keywords, phrase, fields, scores)` from scorer.js. -/
def scoreQuery (keywords : List String) (phrase : String) (fields : List String)
    (scores : MatchScores) : Option ScoreMatch :=
  let phraseMatch :=
    if keywords.length > 1 then bestFieldMatch phrase fields scores else none
  let bestMatch :=
    keywords.foldl
      (fun acc kw =>
        match bestFieldMatch kw fields scores with
        | some m =>
            match acc with
            | some b => if b.score < m.score then some m else some b
            | none => some m
        | none => acc)
      none
  match phraseMatch, bestMatch with
  | none, none => none
  | some p, none => some p
  | none, some b => some b
  | some p, some b => if p.score < b.score then some b else some p

/-- JS `+x.toFixed(6)`: round to six decimal places. -/
def jsToFixed6 (q : ℚ) : ℚ :=
  ((round (q * 1000000) : ℤ) : ℚ) / 1000000

/-- `computeScore(item, keywords, phrase, fields, rawModuleWeight, cfg)`:
`rawModuleWeight || 1` makes both a missing and a zero weight fall back
to 1. -/
def computeScore (item : Item) (keywords : List String) (phrase : String)
    (fields : List String) (rawModuleWeight : Option ℚ) (cfg : ScorerConfig) :
    Option Item :=
  match scoreQuery keywords phrase fields cfg.matchScores with
  | none => none
  | some m =>
      let w : ℚ :=
        match rawModuleWeight with
        | some q => if q = 0 then 1 else q
        | none => 1
      some { item with
        _score := jsToFixed6 (m.score * w),
        _matchType := m.type,
        _matchScore := jsToFixed6 m.score }

/-- Descending order on `_score` (the comparator
`(a, b) => b._score - a._score`). -/
def scoreGE (a b : Item) : Prop :=
  b._score ≤ a._score

instance : DecidableRel scoreGE :=
  fun a b => inferInstanceAs (Decidable (b._score ≤ a._score))

instance : IsTotal Item scoreGE :=
  ⟨fun a b => le_total b._score a._score⟩

instance : IsTrans Item scoreGE :=
  ⟨fun _ _ _ h1 h2 => le_trans h2 h1⟩

/-- `rankResults(items, keywords, phrase, getFields, getWeight, cfg)`:
score every candidate, drop non-matches, sort descending by `_score`
(JS `Array.prototype.sort` is stable; modelled by stable insertion
sort). -/
def rankResults (items : List Item) (keywords : List String) (phrase : String)
    (getFields : Item → List String) (getWeight : Item → Option ℚ)
    (cfg : ScorerConfig) : List Item :=
  let scored := items.filterMap
    (fun item => computeScore item keywords phrase (getFields item) (getWeight item) cfg)
  scored.insertionSort scoreGE

/-- One step of `deduplicateBy`'s `Map` fold:
`if (!seen.has(k) || item._score > seen.get(k)._score) seen.set(k, item)`. -/
def dedupStep (getKey : Item → String) (seen : List (String × Item)) (item : Item) :
    List (String × Item) :=
  let k := getKey item
  match getProp seen k with
  | none => setProp seen k item
  | some prev => if prev._score < item._score then setProp seen k item else seen

/-- `deduplicateBy(items, getKey)` from scorer.js. -/
def deduplicateBy (items : List Item) (getKey : Item → String) : List Item :=
  let seen := items.foldl (dedupStep getKey) []
  (seen.map Prod.snd).insertionSort scoreGE

/-- Invariant of `deduplicateBy`'s fold over the processed prefix: keys
are distinct, each slot holds a processed item with that key whose score
dominates every processed item sharing the key, and every processed
item's key is present. -/
def DedupInv (getKey : Item → String) (processed : List Item)
    (seen : List (String × Item)) : Prop :=
  (seen.map Prod.fst).Nodup ∧
  (∀ kv ∈ seen, kv.1 = getKey kv.2 ∧ kv.2 ∈ processed ∧
    ∀ y ∈ processed, getKey y = kv.1 → y._score ≤ kv.2._score) ∧
  (∀ y ∈ processed, (getProp seen (getKey y)).isSome)

/-! ## searchSlice.js constants and helpers -/

/-- `DEFAULT_MODULE_WEIGHTS` from searchSlice.js. -/
def DEFAULT_MODULE_WEIGHTS : List (String × ℚ) :=
  [("users", 3/2), ("chats", 7/5), ("channels", 6/5), ("department", 11/10),
   ("messages", 1), ("files", 19/20), ("bots", 9/10), ("threads", 17/20),
   ("widgets", 3/4), ("apps", 3/4), ("connections", 3/5), ("settings", 3/5)]

def MAX_CLIENT_CHATS : Nat := 500
def MAX_CLIENT_USERS : Nat := 100
def CACHE_TIMEOUT_MS : Nat := 10 * 60 * 1000

/-- `chatTypeToModule(chatType)` from searchSlice.js: note that the
source maps type 9 to the tag `'bot'`, not `'bots'`. -/
def chatTypeToModule (chatType : Option String) : String :=
  let s := jsString chatType
  if s = "8" then "channels"
  else if s = "1" then "users"
  else if s = "11" then "threads"
  else if s = "9" then "bot"
  else ""

/-- `getOtherUserId(summary, loggedInZuid, chatTitle)` from
searchSlice.js. The whole body is wrapped in `try/catch`: a failed
`JSON.parse` or a non-array value yields `null`. -/
def getOtherUserId (summary : Option SummaryField) (loggedInZuid : Option String)
    (chatTitle : Option String) : Option String :=
  let parsed : ParseOutcome :=
    match summary with
    | some (SummaryField.str r) => r
    | some (SummaryField.jval j) => ParseOutcome.ok j
    | none => ParseOutcome.ok (Json.arr [])
  match parsed with
  | ParseOutcome.failed => none
  | ParseOutcome.ok Json.other => none
  | ParseOutcome.ok (Json.arr participants) =>
      let viaLogged : Option Participant :=
        match loggedInZuid with
        | some z =>
            if z = "" then none
            else participants.find? (fun p => !(jsString p.zuid == z))
        | none => none
      let viaTitle : Option Participant :=
        match chatTitle with
        | some t =>
            if t = "" then none
            else participants.find? (fun p => p.dname == some t)
        | none => none
      let single : Option Participant :=
        if participants.length == 1 then participants.head? else none
      match (viaLogged <|> viaTitle) <|> single with
      | some p =>
          match p.zuid with
          | some s => if s = "" then none else some s
          | none => none
      | none => none

/-- Written from claim C3's wording, as the refinement contrast for
`getOtherUserId`: apply the three resolver strategies in order — (a)
first participant whose zuid differs from the logged-in identifier,
(b) first participant whose dname equals the chat title, (c) the sole
participant when exactly one exists — and return the resolved
participant. -/
def specOtherParty (participants : List Participant) (loggedInZuid : Option String)
    (chatTitle : Option String) : Option Participant :=
  let viaLogged : Option Participant :=
    match loggedInZuid with
    | some z => participants.find? (fun p => !(p.zuid == some z))
    | none => none
  let viaTitle : Option Participant :=
    match chatTitle with
    | some t => participants.find? (fun p => p.dname == some t)
    | none => none
  match viaLogged with
  | some p => some p
  | none =>
      match viaTitle with
      | some p => some p
      | none =>
          if participants.length = 1 then participants.head? else none

/-! ## searchSlice.js: exclusion sets and the client (local) stage -/

/-- The two ID sets of `buildExclusionSets`. -/
structure ExclusionSets where
  existingChatIds : List String
  existingUserIds : List String
deriving DecidableEq

/-- `buildExclusionSets(chats, users, loggedUserZuid)` from searchSlice.js. -/
def buildExclusionSets (chats users : List Item) (loggedUserZuid : Option String) :
    ExclusionSets :=
  let afterChats := chats.foldl
    (fun (acc : ExclusionSets) chat =>
      let acc1 :=
        match chat.chatid with
        | some cid =>
            if cid = "" then acc
            else { acc with existingChatIds := setAdd acc.existingChatIds cid }
        | none => acc
      if jsString chat.chat_type = "1" then
        match getOtherUserId chat.recipantssummary loggedUserZuid chat.title with
        | some z =>
            if z = "" then acc1
            else { acc1 with existingUserIds := setAdd acc1.existingUserIds z }
        | none => acc1
      else acc1)
    ⟨[], []⟩
  users.foldl
    (fun acc u =>
      match u.zuid with
      | some z =>
          if z = "" then acc
          else { acc with existingUserIds := setAdd acc.existingUserIds z }
      | none => acc)
    afterChats

/-- `title.replace(/^[@#]/, '')`: strip one leading `@` or `#`. -/
def stripAtHash (s : String) : String :=
  match s.data with
  | c :: cs => if c = '@' || c = '#' then ⟨cs⟩ else s
  | [] => s

/-- The per-chat mapper of `runClientSearch`. `c.title.replace` throws a
`TypeError` when the title is missing (or not a string); the third
argument passed to `getOtherUserId` is the original, unstripped title. -/
def mapClientChat (loggedUserZuid : Option String) (c : Item) : Except String Item :=
  match c.title with
  | none => Except.error ("TypeError: title is not a string")
  | some t =>
      Except.ok { c with
        title := some (stripAtHash t),
        _module := chatTypeToModule c.chat_type,
        _source := "client",
        id :=
          if jsString c.chat_type = "1" then
            jsOrOpt (getOtherUserId c.recipantssummary loggedUserZuid (some t)) c.chatid
          else c.chatid }

/-- JS `Array.prototype.map` where the mapper may throw: the first throw
aborts the whole map. -/
def mapClientChats (loggedUserZuid : Option String) : List Item → Except String (List Item)
  | [] => Except.ok []
  | c :: cs =>
      match mapClientChat loggedUserZuid c with
      | Except.error e => Except.error e
      | Except.ok item =>
          match mapClientChats loggedUserZuid cs with
          | Except.error e => Except.error e
          | Except.ok rest => Except.ok (item :: rest)

/-- Descending order on `score || 0` (the client-chat sort comparator
`(a, b) => (b.score || 0) - (a.score || 0)`). -/
def clientScoreGE (a b : Item) : Prop :=
  b.score.getD 0 ≤ a.score.getD 0

instance : DecidableRel clientScoreGE :=
  fun a b => inferInstanceAs (Decidable (b.score.getD 0 ≤ a.score.getD 0))

instance : IsTotal Item clientScoreGE :=
  ⟨fun a b => le_total (b.score.getD 0) (a.score.getD 0)⟩

instance : IsTrans Item clientScoreGE :=
  ⟨fun _ _ _ h1 h2 => le_trans h2 h1⟩

/-- Output record of `runClientSearch`. -/
structure ClientSearchOut where
  clientChats : List Item
  clientUsers : List Item
  clientResults : List Item
deriving DecidableEq

/-- `runClientSearch(chats, users, queryLower, loggedUserZuid)` from
searchSlice.js. -/
def runClientSearch (chats users : List Item) (queryLower : String)
    (loggedUserZuid : Option String) : Except String ClientSearchOut :=
  match mapClientChats loggedUserZuid (chats.take MAX_CLIENT_CHATS) with
  | Except.error e => Except.error e
  | Except.ok mapped =>
      let filtered := mapped.filter
        (fun c =>
          match c.title with
          | some t => startsWithL queryLower.data (jsToLower t).data
          | none => false)
      let clientChats := filtered.insertionSort clientScoreGE
      let clientChatZuids :=
        (clientChats.filter (fun c => c._module == "users")).map (fun c => jsString c.id)
      let clientUsers :=
        ((users.take MAX_CLIENT_USERS).map
          (fun u => { u with
            _module := "users", _source := "client",
            id := jsOrOpt u.Zuid (jsOrOpt u.zuid u.id) })).filter
          (fun u =>
            let nameMatch :=
              startsWithL queryLower.data
                (jsToLower (jsOrStr u.full_name (jsOrStr u.display_name ""))).data
            let emailMatch :=
              startsWithL queryLower.data (jsToLower (jsOrStr u.email "")).data
            (nameMatch || emailMatch) && !(clientChatZuids.contains (jsString u.id)))
      Except.ok ⟨clientChats, clientUsers, clientChats ++ clientUsers⟩

/-! ## searchSlice.js: server promises, enrichment, cache, executeSearch -/

/-- The raw value a module API call settles with: an array, a non-array
value, a rejection, or an abort (the latter three all become `[]` after
the per-call `.catch`/`Array.isArray` handling). -/
inductive ApiRaw where
  | arr (items : List Item)
  | notArr
  | failure
  | abort
deriving DecidableEq

/-- The `moduleApis` singleton: `globalsearch` is always defined;
`none` models a module API that is absent (`if (!apiFn) return`). -/
structure ModuleApis where
  globalsearch : ApiRaw
  users : Option ApiRaw := none
  chats : Option ApiRaw := none
  channels : Option ApiRaw := none
  bots : Option ApiRaw := none
  threads : Option ApiRaw := none
  messages : Option ApiRaw := none
  files : Option ApiRaw := none
  department : Option ApiRaw := none
  widgets : Option ApiRaw := none
  apps : Option ApiRaw := none
  connections : Option ApiRaw := none
  settings : Option ApiRaw := none
deriving DecidableEq

/-- `Array.isArray(raw) ? raw : []`, with rejections and aborts caught
into `[]`. -/
def rawList (r : ApiRaw) : List Item :=
  match r with
  | ApiRaw.arr l => l
  | _ => []

/-- The `.then` body of the generic `addModule` helper: tag each record
with module, origin and canonical id, then drop records whose id is in
the exclusion set (when one is supplied). -/
def processModuleItems (md : String) (idOf : Item → Option String)
    (filterSet : Option (List String)) (raw : ApiRaw) : List Item :=
  ((rawList raw).map
    (fun item => { item with
      _module := jsOrStrS item._module md,
      _source := jsOrStrS item._source ("server"),
      id := idOf item })).filter
    (fun item =>
      match filterSet with
      | none => true
      | some s => !(s.contains (jsString item.id)))

/-- The `.then` body of the `globalsearch` promise. -/
def processGlobalItems (loggedUserZuid : Option String) (raw : ApiRaw) : List Item :=
  (rawList raw).map
    (fun item => { item with
      _module := jsOrStrS item._module "",
      _source := jsOrStrS item._source ("server"),
      id :=
        if jsString item.chat_type = "1" then
          jsOrOpt (getOtherUserId item.recipantssummary loggedUserZuid item.title)
            item.chatid
        else item.chatid })

/-- The `.then` body of the users-API promise. -/
def processUsersApiItems (existingUserIds : List String) (raw : ApiRaw) : List Item :=
  ((rawList raw).map
    (fun item => { item with
      _module := jsOrStrS item._module ("users"),
      _source := jsOrStrS item._source ("server"),
      id := item.zuid })).filter
    (fun item => !(existingUserIds.contains (jsString item.id)))

/-- The enablement test of the users-API promise:
`enabledModules.includes('users') && (activeCategory === 'all' || activeCategory === 'users')`. -/
def usersModuleEnabled (enabledModules : List String) (activeCategory : String) : Bool :=
  enabledModules.contains ("users")
    && (activeCategory == "all" || activeCategory == "users")

/-- `buildServerPromises(...)` from searchSlice.js, as the ordered list
of issued calls paired with the (settled, post-processed) result each
promise resolves to. Issuing a promise is the point at which the
network call happens, so this list is also the effect trace. -/
def buildServerPromises (apis : ModuleApis) (loggedUserZuid : Option String)
    (enabledModules : List String) (activeCategory : String)
    (existingChatIds existingUserIds : List String) : List (String × List Item) :=
  let addModule := fun (md : String) (apiFn : Option ApiRaw)
      (filterSet : Option (List String)) (idOf : Item → Option String) =>
    match apiFn with
    | none => ([] : List (String × List Item))
    | some r =>
        if !(enabledModules.contains md) then []
        else if activeCategory != "all" && activeCategory != md then []
        else [(md, processModuleItems md idOf filterSet r)]
  [(("globalsearch" : String), processGlobalItems loggedUserZuid apis.globalsearch)]
    ++ (match apis.users with
        | some r =>
            if usersModuleEnabled enabledModules activeCategory then
              [(("users" : String), processUsersApiItems existingUserIds r)]
            else []
        | none => [])
    ++ addModule ("chats") apis.chats (some existingChatIds) (fun i => i.chatid)
    ++ addModule ("channels") apis.channels (some existingChatIds) (fun i => i.chatid)
    ++ addModule ("bots") apis.bots (some existingChatIds) (fun i => i.chatid)
    ++ addModule ("threads") apis.threads (some existingChatIds) (fun i => i.chatid)
    ++ addModule ("messages") apis.messages none (fun i => i.msguid)
    ++ addModule ("files") apis.files none (fun i => i.id)
    ++ addModule ("department") apis.department none (fun i => i.id)
    ++ addModule ("widgets") apis.widgets none (fun i => i.id)
    ++ addModule ("apps") apis.apps none (fun i => i.id)
    ++ addModule ("connections") apis.connections none (fun i => i.id)
    ++ addModule ("settings") apis.settings none (fun i => i.id)

/-- `enrichClientData(...)`: append unique global-search results into
`chats` and users-API results into `users`, updating the ID sets. -/
def enrichClientData (chats users : List Item)
    (existingChatIds existingUserIds : List String)
    (globalResults usersApiResults : List Item) :
    (List Item × List Item × List String × List String) :=
  let step1 := globalResults.foldl
    (fun (acc : List Item × List String) item =>
      match item.chatid with
      | some cid =>
          if cid = "" then acc
          else if acc.2.contains cid then acc
          else (acc.1 ++ [item], setAdd acc.2 cid)
      | none => acc)
    (chats, existingChatIds)
  let step2 := usersApiResults.foldl
    (fun (acc : List Item × List String) item =>
      match item.zuid with
      | some uid =>
          if uid = "" then acc
          else if acc.2.contains uid then acc
          else (acc.1 ++ [item], setAdd acc.2 uid)
      | none => acc)
    (users, existingUserIds)
  (step1.1, step2.1, step1.2, step2.2)

/-- One cache slot: `{ results, timestamp, activeCategory }`. -/
structure CacheEntry where
  results : List Item
  timestamp : Nat
  activeCategory : String
deriving DecidableEq

/-- `state.search.cache`: a plain JS object keyed by the normalized
query text. -/
abbrev CacheMap := List (String × CacheEntry)

/-- `ParsedQuery` as produced by queryParser.js (the coordinator reads
`trimmed`, `phrase` and `keywords`). -/
structure ParsedQuery where
  raw : String
  trimmed : String
  phrase : String
  keywords : List String
  isEmpty : Bool
  isMultiWord : Bool
  filters : List (String × String)
deriving DecidableEq

/-- The `executeSearch` thunk payload. `getFields`/`getDedupKey` are the
caller-supplied resolvers (the `?? getDefault...` fallbacks, whose
default dedup key involves `Math.random()`, are outside the model:
the resolvers are taken as given total functions). -/
structure SearchPayload where
  parsedQuery : ParsedQuery
  activeCategory : String
  chats : List Item
  users : List Item
  enabledModules : List String
  moduleWeights : List (String × ℚ)
  scorerConfig : Option ScorerConfig := none
  getFields : Item → List String
  getDedupKey : Item → String
  maxResults : Option Nat := none
  loggedUserZuid : Option String := none
  apis : ModuleApis

/-- What an invocation settles with (the `aborted` variant of the source
is unreachable here: per-module failures are caught into `[]` inside the
promises, so the only throw site is the client stage's `TypeError`). -/
inductive SearchOutcome where
  | ok (results : List Item) (fromCache : Bool)
  | rejected (message : String)
deriving DecidableEq

/-- Effect trace of one invocation: which pipeline stages ran and which
module calls were issued. -/
structure SearchTrace where
  exclusionsBuilt : Bool := false
  localRan : Bool := false
  mergedRan : Bool := false
  calledModules : List String := []
  enrichedChats : List Item := []
  enrichedUsers : List Item := []
deriving DecidableEq

/-- Result of one `executeSearch` invocation: outcome, effect trace and
the cache after the invocation's write (if any). -/
structure SearchRun where
  outcome : SearchOutcome
  trace : SearchTrace
  cacheAfter : CacheMap
deriving DecidableEq

/-- `maxResults ? merged.slice(0, maxResults) : merged` (`0` is falsy). -/
def jsTruncate (maxResults : Option Nat) (merged : List Item) : List Item :=
  match maxResults with
  | some n => if n = 0 then merged else merged.take n
  | none => merged

/-- The core's weight resolver:
`(item) => moduleWeights[item._module] ?? DEFAULT_MODULE_WEIGHTS[item._module]`. -/
def coreGetWeight (p : SearchPayload) (item : Item) : Option ℚ :=
  match getProp p.moduleWeights item._module with
  | some w => some w
  | none => getProp DEFAULT_MODULE_WEIGHTS item._module

/-- `shouldFetchServer ? buildServerPromises(...) : []`: the issued
server calls for a given client-stage output. -/
def coreServerCalls (p : SearchPayload) (cs : ClientSearchOut) :
    List (String × List Item) :=
  if cs.clientChats.length < 15 || cs.clientUsers.length < 15 then
    buildServerPromises p.apis p.loggedUserZuid p.enabledModules p.activeCategory
      (buildExclusionSets p.chats p.users p.loggedUserZuid).existingChatIds
      (buildExclusionSets p.chats p.users p.loggedUserZuid).existingUserIds
  else []

/-- Step 6's `serverResults`: the flattened settled responses, ranked. -/
def coreServerResults (p : SearchPayload) (cs : ClientSearchOut) : List Item :=
  rankResults ((coreServerCalls p cs).map Prod.snd).flatten
    p.parsedQuery.keywords p.parsedQuery.phrase p.getFields (coreGetWeight p)
    (p.scorerConfig.getD DEFAULT_SCORER_CONFIG)

/-- The remote part of `merged`: deduplicated ranked server results with
local dedup-key collisions dropped. -/
def coreTail (p : SearchPayload) (cs : ClientSearchOut) : List Item :=
  (deduplicateBy (coreServerResults p cs) p.getDedupKey).filter
    (fun s => !(cs.clientResults.any (fun c => p.getDedupKey c == p.getDedupKey s)))

/-- `final = maxResults ? merged.slice(0, maxResults) : merged`. -/
def coreFinal (p : SearchPayload) (cs : ClientSearchOut) : List Item :=
  jsTruncate p.maxResults (cs.clientResults ++ coreTail p cs)

/-- The `captured.globalSearchResults` of the invocation. -/
def coreGlobalResults (p : SearchPayload) (cs : ClientSearchOut) : List Item :=
  if cs.clientChats.length < 15 || cs.clientUsers.length < 15 then
    processGlobalItems p.loggedUserZuid p.apis.globalsearch
  else []

/-- The `captured.usersApiResults` of the invocation. -/
def coreUsersApiResults (p : SearchPayload) (cs : ClientSearchOut) : List Item :=
  match p.apis.users with
  | some r =>
      if (cs.clientChats.length < 15 || cs.clientUsers.length < 15)
          && usersModuleEnabled p.enabledModules p.activeCategory then
        processUsersApiItems
          (buildExclusionSets p.chats p.users p.loggedUserZuid).existingUserIds r
      else []
  | none => []

/-- Step 5's `enrichClientData` call. -/
def coreEnriched (p : SearchPayload) (cs : ClientSearchOut) :
    (List Item × List Item × List String × List String) :=
  enrichClientData p.chats p.users
    (buildExclusionSets p.chats p.users p.loggedUserZuid).existingChatIds
    (buildExclusionSets p.chats p.users p.loggedUserZuid).existingUserIds
    (coreGlobalResults p cs) (coreUsersApiResults p cs)

/-- The pipeline of `executeSearch` after the cache check (steps 1-7 of
the source): exclusion sets, client search, server fan-out, enrichment,
rank/dedup/merge, truncation and the cache write. -/
def runSearchCore (cache : CacheMap) (now : Nat) (p : SearchPayload) : SearchRun :=
  match runClientSearch p.chats p.users (jsToLower p.parsedQuery.trimmed)
      p.loggedUserZuid with
  | Except.error e =>
      { outcome := SearchOutcome.rejected e,
        trace := { exclusionsBuilt := true, localRan := true },
        cacheAfter := cache }
  | Except.ok cs =>
      { outcome := SearchOutcome.ok (coreFinal p cs) false,
        trace := { exclusionsBuilt := true, localRan := true, mergedRan := true,
                   calledModules := (coreServerCalls p cs).map Prod.fst,
                   enrichedChats := (coreEnriched p cs).1,
                   enrichedUsers := (coreEnriched p cs).2.1 },
        cacheAfter := setProp cache (jsToLower p.parsedQuery.trimmed)
          ⟨coreFinal p cs, now, p.activeCategory⟩ }

/-- The cache check of `executeSearch` fails: no entry under the
normalized query key with the invocation's category and a live age. -/
def cacheMiss (cache : CacheMap) (now : Nat) (p : SearchPayload) : Prop :=
  ∀ e, getProp cache (jsToLower p.parsedQuery.trimmed) = some e →
    ¬ (e.activeCategory = p.activeCategory ∧ now - e.timestamp < CACHE_TIMEOUT_MS)

/-- `executeSearch` from searchSlice.js: cache check, then the pipeline. -/
def executeSearchModel (cache : CacheMap) (now : Nat) (p : SearchPayload) : SearchRun :=
  let cacheKey := jsToLower p.parsedQuery.trimmed
  match getProp cache cacheKey with
  | some cached =>
      if cached.activeCategory = p.activeCategory
          ∧ now - cached.timestamp < CACHE_TIMEOUT_MS then
        { outcome := SearchOutcome.ok cached.results true,
          trace := {}, cacheAfter := cache }
      else runSearchCore cache now p
  | none => runSearchCore cache now p

/-! ### Concrete fixtures for the witness theorems -/

def wQuery : ParsedQuery :=
  { raw := "x", trimmed := "x", phrase := "x", keywords := [("x")],
    isEmpty := false, isMultiWord := false, filters := [] }

def wChat : Item :=
  { title := some ("xRoom"), chatid := some ("10"), chat_type := some ("8") }

def wPayload : SearchPayload :=
  { parsedQuery := wQuery, activeCategory := "all", chats := [wChat], users := [],
    enabledModules := [], moduleWeights := [],
    getFields := fun i => [jsOrStr i.title ("")],
    getDedupKey := fun i => jsString i.id,
    apis := { globalsearch := ApiRaw.arr [] } }

def wChatMapped : Item :=
  { wChat with
    title := some ("xRoom"),
    _module := "channels",
    _source := "client",
    id := some ("10") }

def wClientOut : ClientSearchOut :=
  ⟨[wChatMapped], [], [wChatMapped]⟩

def wBadPayload : SearchPayload :=
  { wPayload with chats := [({ chatid := some ("11") } : Item)] }

def wCacheEntry : CacheEntry :=
  { results := [], timestamp := 1000, activeCategory := "all" }

def wCache : CacheMap :=
  [(("x"), wCacheEntry)]

def wPayloadUsersCat : SearchPayload :=
  { wPayload with activeCategory := "users" }

/-! ## queryParser.js -/

/-- `FILTER_TOKENS` from queryParser.js. -/
def FILTER_TOKENS : List String :=
  ["from", "to", "in", "after", "before", "on",
   "filenamehas", "linkhas", "filehas", "fileobject"]

/-- One attempt of `TOKEN_RE = /(\w+):([^\s]+)/` at the current
position: a maximal nonempty `\w+` run, a literal `:`, then a maximal
nonempty `[^\s]+` run (no shorter `\w+` prefix can succeed, since the
character after a shorter prefix is a word character, not `:`).
Returns (key, value, rest-after-match). -/
def tryMatch (l : List Char) : Option (List Char × List Char × List Char) :=
  let w := l.takeWhile jsIsWordChar
  if w = [] then none
  else
    match l.drop w.length with
    | ':' :: r =>
        let v := r.takeWhile (fun c => !(jsIsSpace c))
        if v = [] then none
        else some (w, v, r.drop v.length)
    | _ => none

/-- The global `exec` loop of `TOKEN_RE`: find the leftmost match at or
after the current position, record it, resume after its end. Fuel is the
remaining string length (each step consumes at least one character). -/
def scanAux : Nat → List Char → List (List Char × List Char)
  | 0, _ => []
  | _ + 1, [] => []
  | fuel + 1, c :: cs =>
      match tryMatch (c :: cs) with
      | some (w, v, rest) => (w, v) :: scanAux fuel rest
      | none => scanAux fuel cs

/-- All matches of `TOKEN_RE` over the string, left to right. -/
def scanTokens (l : List Char) : List (List Char × List Char) :=
  scanAux l.length l

/-- `String.prototype.replace` with a string pattern and empty
replacement: remove the first occurrence (no-op when absent). -/
def replaceFirst : List Char → List Char → List Char
  | [], _ => []
  | c :: cs, p =>
      if startsWithL p (c :: cs) then (c :: cs).drop p.length
      else c :: replaceFirst cs p

/-- `remaining.replace(/\s+/g, ' ')`: collapse every whitespace run to a
single blank; the flag records whether we are inside a run. -/
def collapseAux : Bool → List Char → List Char
  | _, [] => []
  | prevSpace, c :: cs =>
      if jsIsSpace c then
        if prevSpace then collapseAux true cs
        else ' ' :: collapseAux true cs
      else c :: collapseAux false cs

def collapseWs (l : List Char) : List Char :=
  collapseAux false l

/-- `split(/\s+/)`: pieces between whitespace runs (a leading or
trailing run contributes an empty piece, as in JS). -/
def splitWsAux : Bool → List Char → List Char → List (List Char)
  | skipping, cur, [] => if skipping then [[]] else [cur.reverse]
  | skipping, cur, c :: cs =>
      if jsIsSpace c then
        if skipping then splitWsAux true [] cs
        else cur.reverse :: splitWsAux true [] cs
      else splitWsAux false (c :: cur) cs

def splitWsL (l : List Char) : List (List Char) :=
  splitWsAux false [] l

/-- The body of the `while ((m = TOKEN_RE.exec(raw)) !== null)` loop:
keep the (lowercased) key when it is a recognized token, remember the
full matched text `m[0]` for later removal. -/
def parseStep (validTokens : List String)
    (acc : List (String × String) × List (List Char))
    (m : List Char × List Char) : List (String × String) × List (List Char) :=
  let key : String := ⟨toLowerL m.1⟩
  if validTokens.contains key then
    (setProp acc.1 key (stripAtHash ⟨m.2⟩), acc.2 ++ [m.1 ++ ':' :: m.2])
  else acc

/-- `parseQuery(raw, validTokens)` from queryParser.js. -/
def parseQuery (raw : String) (validTokens : List String := FILTER_TOKENS) :
    ParsedQuery :=
  let step := (scanTokens raw.data).foldl (parseStep validTokens) ([], [])
  let filters := step.1
  let removed := step.2
  let remaining := removed.foldl replaceFirst raw.data
  let trimmed : String := ⟨jsTrimL (collapseWs remaining)⟩
  let keywords : List String :=
    if trimmed = "" then []
    else (splitWsL trimmed.data).map (fun w => (⟨w⟩ : String))
  { raw := raw, trimmed := trimmed, phrase := trimmed, keywords := keywords,
    isEmpty := keywords.isEmpty && filters.isEmpty,
    isMultiWord := keywords.length > 1,
    filters := filters }

/-- Ascending insertion by key (the `sort(([a], [b]) => a.localeCompare(b))`
comparator; filter keys are plain lowercase ASCII, where `localeCompare`
agrees with code-point order). -/
def insertEntry (e : String × String) :
    List (String × String) → List (String × String)
  | [] => [e]
  | f :: fs => if f.1 < e.1 then f :: insertEntry e fs else e :: f :: fs

def sortEntries : List (String × String) → List (String × String)
  | [] => []
  | e :: es => insertEntry e (sortEntries es)

/-- `Array.prototype.join(' ')`. -/
def jsJoinSp : List String → String
  | [] => ""
  | [s] => s
  | s :: rest => s ++ " " ++ jsJoinSp rest

/-- `serializeQuery(pq)` from queryParser.js: phrase, then the filters
sorted by key and rendered `key:value`, all space-joined (empty parts
dropped by `.filter(Boolean)`). -/
def serializeQuery (pq : ParsedQuery) : String :=
  let filterStr :=
    jsJoinSp ((sortEntries pq.filters).map (fun e => e.1 ++ ":" ++ e.2))
  jsJoinSp (([pq.trimmed, filterStr]).filter (fun s => !(s == "")))

/-- The character-level shape of a space-joined token region
`k1:v1 k2:v2 …`. -/
def renderToks : List (List Char × List Char) → List Char
  | [] => []
  | [(k, v)] => k ++ ':' :: v
  | (k, v) :: rest => k ++ ':' :: v ++ ' ' :: renderToks rest

/-- A well-formed serialized token: nonempty all-word key, nonempty
whitespace-free value. -/
def GoodTok (m : List Char × List Char) : Prop :=
  m.1 ≠ [] ∧ (∀ c ∈ m.1, jsIsWordChar c = true) ∧
  m.2 ≠ [] ∧ (∀ c ∈ m.2, jsIsSpace c = false)

/-! # Theorems

General-purpose lemmas first, then one theorem per specification claim
(each preceded by a doc comment naming the claim), with witness and
counterexample theorems. -/

/-! ## Characterizations of the JS string primitives -/

theorem startsWithL_iff (p l : List Char) :
    startsWithL p l = true ↔ ∃ t, l = p ++ t := by
  induction p generalizing l with
  | nil => simp [startsWithL]
  | cons a as ih =>
    cases l with
    | nil => simp [startsWithL]
    | cons c cs =>
      simp only [startsWithL, Bool.and_eq_true, decide_eq_true_eq, ih,
        List.cons_append, List.cons.injEq]
      constructor
      · rintro ⟨rfl, t, rfl⟩
        exact ⟨t, rfl, rfl⟩
      · rintro ⟨t, rfl, rfl⟩
        exact ⟨rfl, t, rfl⟩

theorem containsL_iff (sub l : List Char) :
    containsL sub l = true ↔ ∃ u v, l = u ++ sub ++ v := by
  induction l with
  | nil =>
    simp only [containsL, startsWithL_iff]
    constructor
    · rintro ⟨t, ht⟩
      exact ⟨[], t, ht⟩
    · rintro ⟨u, v, huv⟩
      rcases List.append_eq_nil.mp (List.append_eq_nil.mp huv.symm).1 with ⟨_, h2⟩
      exact ⟨v, by simp_all⟩
  | cons c cs ih =>
    simp only [containsL, Bool.or_eq_true, startsWithL_iff, ih]
    constructor
    · rintro (⟨t, ht⟩ | ⟨u, v, huv⟩)
      · exact ⟨[], t, by simpa using ht⟩
      · exact ⟨c :: u, v, by simp [huv]⟩
    · rintro ⟨u, v, huv⟩
      cases u with
      | nil => exact Or.inl ⟨v, by simpa using huv⟩
      | cons b bs =>
        right
        simp only [List.cons_append, List.cons.injEq] at huv
        exact ⟨bs, v, huv.2⟩

/-! ## Association-list (JS object / `Map`) lemmas -/

theorem getProp_eq_none_iff {α : Type} (m : List (String × α)) (k : String) :
    getProp m k = none ↔ k ∉ m.map Prod.fst := by
  induction m with
  | nil => simp [getProp]
  | cons kv rest ih =>
    obtain ⟨k1, v1⟩ := kv
    by_cases h : k1 = k
    · subst h
      simp [getProp]
    · simp only [getProp, if_neg h, List.map_cons, List.mem_cons, ih]
      constructor
      · intro h2
        rintro (rfl | h3)
        · exact h rfl
        · exact h2 h3
      · intro h2 h3
        exact h2 (Or.inr h3)

theorem getProp_isSome_of_mem {α : Type} {m : List (String × α)} {kv : String × α}
    (h : kv ∈ m) : (getProp m kv.1).isSome := by
  induction m with
  | nil => simp at h
  | cons kv1 rest ih =>
    obtain ⟨k1, v1⟩ := kv1
    rcases List.mem_cons.mp h with rfl | h2
    · simp [getProp]
    · by_cases hk : k1 = kv.1 <;> simp [getProp, hk, ih h2]

theorem getProp_mem {α : Type} {m : List (String × α)} {k : String} {v : α}
    (h : getProp m k = some v) : (k, v) ∈ m := by
  induction m with
  | nil => simp [getProp] at h
  | cons kv rest ih =>
    obtain ⟨k1, v1⟩ := kv
    by_cases hk : k1 = k
    · subst hk
      simp [getProp] at h
      simp [h]
    · simp only [getProp, if_neg hk] at h
      exact List.mem_cons_of_mem _ (ih h)

theorem getProp_of_mem_nodup {α : Type} {m : List (String × α)} {kv : String × α}
    (hnd : (m.map Prod.fst).Nodup) (h : kv ∈ m) : getProp m kv.1 = some kv.2 := by
  induction m with
  | nil => simp at h
  | cons kv1 rest ih =>
    obtain ⟨k1, v1⟩ := kv1
    simp only [List.map_cons, List.nodup_cons] at hnd
    rcases List.mem_cons.mp h with rfl | h2
    · simp [getProp]
    · have hk : k1 ≠ kv.1 := by
        intro he
        exact hnd.1 (he ▸ (List.mem_map.mpr ⟨kv, h2, rfl⟩))
      simp [getProp, hk, ih hnd.2 h2]

theorem setProp_of_absent {α : Type} {m : List (String × α)} {k : String} (v : α)
    (h : getProp m k = none) : setProp m k v = m ++ [(k, v)] := by
  induction m with
  | nil => rfl
  | cons kv rest ih =>
    obtain ⟨k1, v1⟩ := kv
    by_cases hk : k1 = k
    · simp [getProp, hk] at h
    · simp only [getProp, if_neg hk] at h
      simp [setProp, hk, ih h]

theorem fst_setProp_of_present {α : Type} {m : List (String × α)} {k : String} (v : α)
    (h : (getProp m k).isSome) : (setProp m k v).map Prod.fst = m.map Prod.fst := by
  induction m with
  | nil => simp [getProp] at h
  | cons kv rest ih =>
    obtain ⟨k1, v1⟩ := kv
    by_cases hk : k1 = k
    · simp [setProp, hk]
    · simp only [getProp, if_neg hk] at h
      simp [setProp, hk, ih h]

theorem getProp_setProp_self {α : Type} (m : List (String × α)) (k : String) (v : α) :
    getProp (setProp m k v) k = some v := by
  induction m with
  | nil => simp [setProp, getProp]
  | cons kv rest ih =>
    obtain ⟨k1, v1⟩ := kv
    by_cases hk : k1 = k <;> simp [setProp, getProp, hk, ih]

theorem getProp_setProp_ne {α : Type} (m : List (String × α)) (k k' : String) (v : α)
    (h : k' ≠ k) : getProp (setProp m k v) k' = getProp m k' := by
  induction m with
  | nil => simp [setProp, getProp, Ne.symm h]
  | cons kv rest ih =>
    obtain ⟨k1, v1⟩ := kv
    by_cases hk : k1 = k
    · subst hk
      simp [setProp, getProp, Ne.symm h]
    · simp [setProp, getProp, hk, ih]

theorem getProp_append {α : Type} (m m' : List (String × α)) (k : String) :
    getProp (m ++ m') k =
      match getProp m k with
      | some v => some v
      | none => getProp m' k := by
  induction m with
  | nil => simp [getProp]
  | cons kv rest ih =>
    obtain ⟨k1, v1⟩ := kv
    by_cases h : k1 = k <;> simp [getProp, h, ih]

theorem mem_setProp_iff {α : Type} {m : List (String × α)} {k : String} {v : α}
    (hnd : (m.map Prod.fst).Nodup) (kv : String × α) :
    kv ∈ setProp m k v ↔ kv = (k, v) ∨ (kv ∈ m ∧ kv.1 ≠ k) := by
  induction m with
  | nil => simp [setProp]
  | cons kv1 rest ih =>
    obtain ⟨k1, v1⟩ := kv1
    simp only [List.map_cons, List.nodup_cons] at hnd
    by_cases hk : k1 = k
    · subst hk
      have hrest : ∀ kv2 ∈ rest, Prod.fst kv2 ≠ k1 := by
        intro kv2 h2 he
        exact hnd.1 (he ▸ (List.mem_map.mpr ⟨kv2, h2, rfl⟩))
      have hsp : setProp ((k1, v1) :: rest) k1 v = (k1, v) :: rest := by
        simp [setProp]
      rw [hsp, List.mem_cons, List.mem_cons]
      constructor
      · rintro (rfl | h2)
        · exact Or.inl rfl
        · exact Or.inr ⟨Or.inr h2, hrest kv h2⟩
      · rintro (rfl | ⟨h2 | h2, h3⟩)
        · exact Or.inl rfl
        · exact absurd (by rw [h2]) h3
        · exact Or.inr h2
    · have hsp : setProp ((k1, v1) :: rest) k v = (k1, v1) :: setProp rest k v := by
        simp [setProp, hk]
      rw [hsp, List.mem_cons, ih hnd.2, List.mem_cons]
      constructor
      · rintro (rfl | rfl | ⟨h2, h3⟩)
        · exact Or.inr ⟨Or.inl rfl, hk⟩
        · exact Or.inl rfl
        · exact Or.inr ⟨Or.inr h2, h3⟩
      · rintro (rfl | ⟨h2 | h2, h3⟩)
        · exact Or.inr (Or.inl rfl)
        · exact Or.inl h2
        · exact Or.inr (Or.inr ⟨h2, h3⟩)

/-! ## `deduplicateBy` fold invariant -/

theorem dedupStep_inv {getKey : Item → String} {processed : List Item}
    {seen : List (String × Item)} (h : DedupInv getKey processed seen) (it : Item) :
    DedupInv getKey (processed ++ [it]) (dedupStep getKey seen it) := by
  obtain ⟨hnd, hmem, hcov⟩ := h
  unfold dedupStep
  cases hget : getProp seen (getKey it) with
  | none =>
    simp only [hget]
    rw [setProp_of_absent _ hget]
    refine ⟨?_, ?_, ?_⟩
    · have hk : getKey it ∉ seen.map Prod.fst := (getProp_eq_none_iff _ _).mp hget
      have hmap : (seen ++ [(getKey it, it)]).map Prod.fst
          = seen.map Prod.fst ++ [getKey it] := by simp
      rw [hmap, List.nodup_append]
      refine ⟨hnd, List.nodup_singleton _, ?_⟩
      intro a ha hb
      rw [List.mem_singleton] at hb
      subst hb
      exact hk ha
    · intro kv hkv
      rcases List.mem_append.mp hkv with hkvL | hkvR
      · obtain ⟨h1, h2, h3⟩ := hmem kv hkvL
        refine ⟨h1, List.mem_append_left _ h2, ?_⟩
        intro y hy hky
        rcases List.mem_append.mp hy with hyL | hyR
        · exact h3 y hyL hky
        · simp only [List.mem_singleton] at hyR
          subst hyR
          exfalso
          have hs := getProp_isSome_of_mem hkvL
          rw [← hky, hget] at hs
          simp at hs
      · simp only [List.mem_singleton] at hkvR
        subst hkvR
        refine ⟨rfl, List.mem_append_right _ (by simp), ?_⟩
        intro y hy hky
        rcases List.mem_append.mp hy with hyL | hyR
        · exfalso
          have hs := hcov y hyL
          rw [hky] at hs
          rw [hget] at hs
          simp at hs
        · simp only [List.mem_singleton] at hyR
          subst hyR
          exact le_refl _
    · intro y hy
      rcases List.mem_append.mp hy with hy | hy
      · have hs := hcov y hy
        rw [getProp_append]
        cases hg : getProp seen (getKey y) with
        | none => rw [hg] at hs; simp at hs
        | some v => simp
      · simp only [List.mem_singleton] at hy
        subst hy
        rw [getProp_append, hget]
        simp [getProp]
  | some prev =>
    simp only [hget]
    by_cases hlt : prev._score < it._score
    · simp only [if_pos hlt]
      have hprevmem : (getKey it, prev) ∈ seen := getProp_mem hget
      refine ⟨?_, ?_, ?_⟩
      · rw [fst_setProp_of_present _ (by simp [hget])]
        exact hnd
      · intro kv hkv
        rcases (mem_setProp_iff hnd kv).mp hkv with rfl | ⟨hkv2, hkne⟩
        · refine ⟨rfl, List.mem_append_right _ (by simp), ?_⟩
          intro y hy hky
          rcases List.mem_append.mp hy with hy | hy
          · exact le_trans ((hmem _ hprevmem).2.2 y hy hky) (le_of_lt hlt)
          · simp only [List.mem_singleton] at hy
            subst hy
            exact le_refl _
        · obtain ⟨h1, h2, h3⟩ := hmem kv hkv2
          refine ⟨h1, List.mem_append_left _ h2, ?_⟩
          intro y hy hky
          rcases List.mem_append.mp hy with hy | hy
          · exact h3 y hy hky
          · simp only [List.mem_singleton] at hy
            subst hy
            exact absurd hky.symm hkne
      · intro y hy
        by_cases hkey : getKey y = getKey it
        · rw [hkey, getProp_setProp_self]
          simp
        · rw [getProp_setProp_ne _ _ _ _ hkey]
          rcases List.mem_append.mp hy with hy | hy
          · exact hcov y hy
          · simp only [List.mem_singleton] at hy
            subst hy
            exact absurd rfl hkey
    · simp only [if_neg hlt]
      refine ⟨hnd, ?_, ?_⟩
      · intro kv hkv
        obtain ⟨h1, h2, h3⟩ := hmem kv hkv
        refine ⟨h1, List.mem_append_left _ h2, ?_⟩
        intro y hy hky
        rcases List.mem_append.mp hy with hy | hy
        · exact h3 y hy hky
        · simp only [List.mem_singleton] at hy
          subst hy
          have hgp := getProp_of_mem_nodup hnd hkv
          rw [← hky, hget] at hgp
          rw [← Option.some.inj hgp]
          exact not_lt.mp hlt
      · intro y hy
        rcases List.mem_append.mp hy with hy | hy
        · exact hcov y hy
        · simp only [List.mem_singleton] at hy
          subst hy
          simp [hget]

theorem dedupFold_inv (getKey : Item → String) (items : List Item) :
    ∀ (processed : List Item) (seen : List (String × Item)),
      DedupInv getKey processed seen →
      DedupInv getKey (processed ++ items) (items.foldl (dedupStep getKey) seen) := by
  induction items with
  | nil =>
    intro pr seen h
    simpa using h
  | cons a rest ih =>
    intro pr seen h
    have h3 := ih (pr ++ [a]) _ (dedupStep_inv h a)
    simpa [List.append_assoc] using h3

theorem dedup_inv_final (getKey : Item → String) (items : List Item) :
    DedupInv getKey items (items.foldl (dedupStep getKey) []) := by
  have h := dedupFold_inv getKey items [] [] ⟨by simp, by simp, by simp⟩
  simpa using h

theorem deduplicateBy_sorted (items : List Item) (getKey : Item → String) :
    List.Sorted scoreGE (deduplicateBy items getKey) :=
  List.sorted_insertionSort scoreGE _

theorem rankResults_sorted (items : List Item) (keywords : List String)
    (phrase : String) (getFields : Item → List String) (getWeight : Item → Option ℚ)
    (cfg : ScorerConfig) :
    List.Sorted scoreGE (rankResults items keywords phrase getFields getWeight cfg) :=
  List.sorted_insertionSort scoreGE _

theorem deduplicateBy_keys_pairwise (items : List Item) (getKey : Item → String) :
    List.Pairwise (fun a b => getKey a ≠ getKey b) (deduplicateBy items getKey) := by
  obtain ⟨hnd, hmem, _⟩ := dedup_inv_final getKey items
  have hfst : (items.foldl (dedupStep getKey) []).map Prod.fst
      = ((items.foldl (dedupStep getKey) []).map Prod.snd).map getKey := by
    rw [List.map_map]
    exact List.map_congr_left (fun kv hkv => (hmem kv hkv).1)
  rw [hfst] at hnd
  have hp : List.Pairwise (fun a b => getKey a ≠ getKey b)
      ((items.foldl (dedupStep getKey) []).map Prod.snd) := by
    rw [List.Nodup] at hnd
    exact (List.pairwise_map.mp hnd)
  have hperm := List.perm_insertionSort scoreGE
    ((items.foldl (dedupStep getKey) []).map Prod.snd)
  exact (hperm.pairwise_iff (fun h he => h he.symm)).mpr hp

theorem deduplicateBy_survivor (items : List Item) (getKey : Item → String) :
    ∀ x ∈ deduplicateBy items getKey, ∀ y ∈ items, getKey y = getKey x →
      y._score ≤ x._score := by
  intro x hx y hy hk
  obtain ⟨hnd, hmem, _⟩ := dedup_inv_final getKey items
  have hx2 : x ∈ (items.foldl (dedupStep getKey) []).map Prod.snd := by
    have hperm := List.perm_insertionSort scoreGE
      ((items.foldl (dedupStep getKey) []).map Prod.snd)
    exact hperm.mem_iff.mp hx
  obtain ⟨kv, hkv, hsnd⟩ := List.mem_map.mp hx2
  obtain ⟨h1, _, h3⟩ := hmem kv hkv
  rw [← hsnd]
  refine h3 y hy ?_
  rw [h1, hsnd]
  exact hk

theorem deduplicateBy_subset (items : List Item) (getKey : Item → String) :
    ∀ x ∈ deduplicateBy items getKey, x ∈ items := by
  intro x hx
  obtain ⟨_, hmem, _⟩ := dedup_inv_final getKey items
  have hx2 : x ∈ (items.foldl (dedupStep getKey) []).map Prod.snd := by
    have hperm := List.perm_insertionSort scoreGE
      ((items.foldl (dedupStep getKey) []).map Prod.snd)
    exact hperm.mem_iff.mp hx
  obtain ⟨kv, hkv, hsnd⟩ := List.mem_map.mp hx2
  exact hsnd ▸ (hmem kv hkv).2.1

/-! ## Claim C7: `rankResults` sortedness and `deduplicateBy` keys -/

/-- C7. `rankResults` output is sorted by non-increasing `_score`;
`deduplicateBy` leaves no two items with the same key, and each
survivor's `_score` dominates every input item sharing its key. -/
theorem rankResults_deduplicateBy_spec :
    (∀ (items : List Item) (keywords : List String) (phrase : String)
        (getFields : Item → List String) (getWeight : Item → Option ℚ)
        (cfg : ScorerConfig),
      List.Sorted scoreGE (rankResults items keywords phrase getFields getWeight cfg)) ∧
    (∀ (items : List Item) (getKey : Item → String),
      List.Pairwise (fun a b => getKey a ≠ getKey b) (deduplicateBy items getKey) ∧
      ∀ x ∈ deduplicateBy items getKey, ∀ y ∈ items, getKey y = getKey x →
        y._score ≤ x._score) :=
  ⟨fun items keywords phrase getFields getWeight cfg =>
      rankResults_sorted items keywords phrase getFields getWeight cfg,
   fun items getKey =>
      ⟨deduplicateBy_keys_pairwise items getKey, deduplicateBy_survivor items getKey⟩⟩

/-- Witness for C7 at a concrete input: three items, two sharing a dedup
key, checking sortedness, key distinctness and survivor dominance. -/
theorem rankResults_deduplicateBy_spec_witness :
    List.Sorted scoreGE
      (rankResults [{ title := some ("beta") }, { title := some ("alpha") }]
        [("al")] ("al") (fun i => [jsOrStr i.title ""]) (fun _ => none)
        DEFAULT_SCORER_CONFIG) ∧
    List.Pairwise (fun a b => a._module ≠ b._module)
      (deduplicateBy
        [{ _module := "users", _score := 1 }, { _module := "users", _score := 2 },
         { _module := "chats", _score := 0 }]
        (fun i => i._module)) ∧
    ({ _module := "users", _score := 1 } : Item)._score
      ≤ ({ _module := "users", _score := 2 } : Item)._score := by
  refine ⟨rankResults_deduplicateBy_spec.1 _ _ _ _ _ _,
    (rankResults_deduplicateBy_spec.2 _ _).1, ?_⟩
  exact (rankResults_deduplicateBy_spec.2
    [{ _module := "users", _score := 1 }, { _module := "users", _score := 2 },
     { _module := "chats", _score := 0 }]
    (fun i => i._module)).2
    { _module := "users", _score := 2 } (by decide)
    { _module := "users", _score := 1 } (by decide) (by decide)

/-! ## Claim C6: `detectMatch` classification -/

/-- C6. `detectMatch` lowercases and trims both operands, returns `none`
when either operand is empty before or after trimming, and otherwise
classifies in priority order with the default scores: equality → exact
1.5; prefix → startsWith 1.0; substring after a blank → afterSpace 0.6;
substring anywhere → middle 0.3; otherwise no match. -/
theorem detectMatch_classification (kw field : String) :
    ((kw = "" ∨ field = "") → detectMatch kw field DEFAULT_MATCH_SCORES = none) ∧
    ((jsTrim (jsToLower kw) = "" ∨ jsTrim (jsToLower field) = "") →
      detectMatch kw field DEFAULT_MATCH_SCORES = none) ∧
    (∀ k f, k = jsTrim (jsToLower kw) → f = jsTrim (jsToLower field) →
      k ≠ "" → f ≠ "" →
      (f = k → detectMatch kw field DEFAULT_MATCH_SCORES = some ⟨"exact", 3/2⟩) ∧
      (f ≠ k → (∃ t, f.data = k.data ++ t) →
        detectMatch kw field DEFAULT_MATCH_SCORES = some ⟨"startsWith", 1⟩) ∧
      (f ≠ k → ¬ (∃ t, f.data = k.data ++ t) →
        (∃ u v, f.data = u ++ ' ' :: k.data ++ v) →
        detectMatch kw field DEFAULT_MATCH_SCORES = some ⟨"afterSpace", 3/5⟩) ∧
      (f ≠ k → ¬ (∃ t, f.data = k.data ++ t) →
        ¬ (∃ u v, f.data = u ++ ' ' :: k.data ++ v) →
        (∃ u v, f.data = u ++ k.data ++ v) →
        detectMatch kw field DEFAULT_MATCH_SCORES = some ⟨"middle", 3/10⟩) ∧
      (¬ (∃ u v, f.data = u ++ k.data ++ v) →
        detectMatch kw field DEFAULT_MATCH_SCORES = none)) := by
  refine ⟨fun h => by simp [detectMatch, h], fun h => ?_, ?_⟩
  · by_cases h0 : kw = "" ∨ field = ""
    · simp [detectMatch, h0]
    · simp only [detectMatch, if_neg h0]
      simp [h]
  · rintro k f rfl rfl hk hf
    by_cases h0 : kw = "" ∨ field = ""
    · rcases h0 with h0 | h0 <;> simp [h0, jsTrim, jsToLower, jsTrimL, toLowerL,
        dropSp] at hk hf
    refine ⟨fun hfk => by simp [detectMatch, h0, hk, hf, hfk, DEFAULT_MATCH_SCORES],
      ?_, ?_, ?_, ?_⟩
    · intro hfk hpre
      have hs : startsWithL (jsTrim (jsToLower kw)).data
          (jsTrim (jsToLower field)).data = true := (startsWithL_iff _ _).mpr hpre
      simp [detectMatch, h0, hk, hf, hfk, hs, DEFAULT_MATCH_SCORES]
    · intro hfk hpre hsub
      have hs : ¬ startsWithL (jsTrim (jsToLower kw)).data
          (jsTrim (jsToLower field)).data = true := by
        rw [startsWithL_iff]; exact hpre
      have hc : containsL (' ' :: (jsTrim (jsToLower kw)).data)
          (jsTrim (jsToLower field)).data = true := by
        rw [containsL_iff]
        obtain ⟨u, v, huv⟩ := hsub
        exact ⟨u, v, by simpa using huv⟩
      simp [detectMatch, h0, hk, hf, hfk, hs, hc, DEFAULT_MATCH_SCORES]
    · intro hfk hpre hasp hsub
      have hs : ¬ startsWithL (jsTrim (jsToLower kw)).data
          (jsTrim (jsToLower field)).data = true := by
        rw [startsWithL_iff]; exact hpre
      have hc1 : ¬ containsL (' ' :: (jsTrim (jsToLower kw)).data)
          (jsTrim (jsToLower field)).data = true := by
        rw [containsL_iff]
        rintro ⟨u, v, huv⟩
        exact hasp ⟨u, v, by simpa using huv⟩
      have hc2 : containsL (jsTrim (jsToLower kw)).data
          (jsTrim (jsToLower field)).data = true := (containsL_iff _ _).mpr hsub
      simp [detectMatch, h0, hk, hf, hfk, hs, hc1, hc2, DEFAULT_MATCH_SCORES]
    · intro hsub
      have hfk : jsTrim (jsToLower field) ≠ jsTrim (jsToLower kw) := by
        intro he
        exact hsub ⟨[], [], by simp [he]⟩
      have hs : ¬ startsWithL (jsTrim (jsToLower kw)).data
          (jsTrim (jsToLower field)).data = true := by
        rw [startsWithL_iff]
        rintro ⟨t, ht⟩
        exact hsub ⟨[], t, by simpa using ht⟩
      have hc1 : ¬ containsL (' ' :: (jsTrim (jsToLower kw)).data)
          (jsTrim (jsToLower field)).data = true := by
        rw [containsL_iff]
        rintro ⟨u, v, huv⟩
        exact hsub ⟨u ++ [' '], v, by simpa using huv⟩
      have hc2 : ¬ containsL (jsTrim (jsToLower kw)).data
          (jsTrim (jsToLower field)).data = true := by
        rw [containsL_iff]; exact hsub
      simp [detectMatch, h0, hk, hf, hfk, hs, hc1, hc2]

/-- Witness for C6 at concrete inputs, one per classification branch. -/
theorem detectMatch_classification_witness :
    detectMatch (" Alice ") ("alice") DEFAULT_MATCH_SCORES = some ⟨"exact", 3/2⟩ ∧
    detectMatch ("al") ("alice smith") DEFAULT_MATCH_SCORES = some ⟨"startsWith", 1⟩ ∧
    detectMatch ("smith") ("alice smith") DEFAULT_MATCH_SCORES = some ⟨"afterSpace", 3/5⟩ ∧
    detectMatch ("lic") ("alice") DEFAULT_MATCH_SCORES = some ⟨"middle", 3/10⟩ ∧
    detectMatch ("zz") ("alice") DEFAULT_MATCH_SCORES = none ∧
    detectMatch ("") ("alice") DEFAULT_MATCH_SCORES = none ∧
    detectMatch ("  ") ("alice") DEFAULT_MATCH_SCORES = none := by
  refine ⟨?_, ?_, ?_, ?_, ?_, ?_, ?_⟩
  · exact ((detectMatch_classification (" Alice ") ("alice")).2.2 _ _ rfl rfl
      (by decide) (by decide)).1 (by decide)
  · exact ((detectMatch_classification ("al") ("alice smith")).2.2 _ _ rfl rfl
      (by decide) (by decide)).2.1 (by decide) ⟨"ice smith".data, by decide⟩
  · exact ((detectMatch_classification ("smith") ("alice smith")).2.2 _ _ rfl rfl
      (by decide) (by decide)).2.2.1 (by decide)
      (by simp only [← startsWithL_iff]; decide)
      ⟨"alice".data, [], by decide⟩
  · exact ((detectMatch_classification ("lic") ("alice")).2.2 _ _ rfl rfl
      (by decide) (by decide)).2.2.2.1 (by decide)
      (by simp only [← startsWithL_iff]; decide)
      (by simp only [← containsL_iff]; decide)
      ⟨"a".data, "e".data, by decide⟩
  · exact ((detectMatch_classification ("zz") ("alice")).2.2 _ _ rfl rfl
      (by decide) (by decide)).2.2.2.2
      (by simp only [← containsL_iff]; decide)
  · exact (detectMatch_classification ("") ("alice")).1 (Or.inl rfl)
  · exact (detectMatch_classification ("  ") ("alice")).2.1 (Or.inl (by decide))

/-! ## Claim C8: the chat-type → module-tag mapping -/

/-- C8 (code bug): `chatTypeToModule` maps types 8/1/11 to
channels/users/threads and unknown types to the empty tag, as claimed —
but it maps type 9 to `'bot'`, not `'bots'`: the tag `'bot'` appears
nowhere else in the system (no weight in `DEFAULT_MODULE_WEIGHTS`, no
category, no module API), while `'bots'` does. -/
theorem chatTypeToModule_bot_mismatch :
    chatTypeToModule (some ("8")) = "channels" ∧
    chatTypeToModule (some ("1")) = "users" ∧
    chatTypeToModule (some ("11")) = "threads" ∧
    chatTypeToModule (some ("9")) = "bot" ∧
    chatTypeToModule (some ("9")) ≠ "bots" ∧
    chatTypeToModule (some ("2")) = "" ∧
    chatTypeToModule none = "" ∧
    getProp DEFAULT_MODULE_WEIGHTS ("bot") = none ∧
    getProp DEFAULT_MODULE_WEIGHTS ("bots") = some (9/10) :=
  ⟨rfl, rfl, rfl, rfl, by decide, rfl, rfl, rfl, rfl⟩

/-! ## Claim C3: other-party resolution -/

theorem find?_congr {α : Type} {p q : α → Bool} (l : List α)
    (h : ∀ x ∈ l, p x = q x) : l.find? p = l.find? q := by
  induction l with
  | nil => rfl
  | cons a rest ih =>
    have ha := h a (List.mem_cons_self a rest)
    cases hq : q a with
    | true => simp [List.find?, ha, hq]
    | false =>
      simp only [List.find?, ha, hq]
      exact ih (fun x hx => h x (List.mem_cons_of_mem a hx))

/-- C3. `getOtherUserId` applies the three resolver strategies in order
and returns the resolved participant's zuid (`none` when all fail), and
returns `none` — as a total function, never a throw — when the summary
string fails decoding or decodes to a non-array. Hypotheses: every
participant carries a nonempty zuid, and a supplied logged-in id or
chat title is nonempty. -/
theorem getOtherUserId_strategies (ps : List Participant)
    (loggedInZuid chatTitle : Option String)
    (hz : ∀ p ∈ ps, ∃ s, p.zuid = some s ∧ s ≠ "")
    (hl : loggedInZuid ≠ some "") (ht : chatTitle ≠ some "") :
    (getOtherUserId (some (SummaryField.jval (Json.arr ps))) loggedInZuid chatTitle
      = (specOtherParty ps loggedInZuid chatTitle).bind (fun p => p.zuid)) ∧
    (getOtherUserId (some (SummaryField.str (ParseOutcome.ok (Json.arr ps))))
        loggedInZuid chatTitle
      = getOtherUserId (some (SummaryField.jval (Json.arr ps))) loggedInZuid chatTitle) ∧
    (getOtherUserId (some (SummaryField.str ParseOutcome.failed))
        loggedInZuid chatTitle = none) ∧
    (getOtherUserId (some (SummaryField.jval Json.other)) loggedInZuid chatTitle
      = none) := by
  refine ⟨?_, rfl, rfl, rfl⟩
  have hext : ∀ (A B : Option Participant),
      (∀ p, A = some p → p ∈ ps) → (∀ p, B = some p → p ∈ ps) →
      (match (A <|> B) <|> (if ps.length == 1 then ps.head? else none) with
       | some p =>
           match p.zuid with
           | some s => if s = "" then none else some s
           | none => none
       | none => none)
      = (match A with
         | some p => some p
         | none =>
             match B with
             | some p => some p
             | none => if ps.length = 1 then ps.head? else none).bind
          (fun p => p.zuid) := by
    intro A B hA hB
    cases A with
    | some p =>
      obtain ⟨s, hs, hsne⟩ := hz p (hA p rfl)
      simp [hs, hsne]
    | none =>
      cases B with
      | some p =>
        obtain ⟨s, hs, hsne⟩ := hz p (hB p rfl)
        simp [hs, hsne]
      | none =>
        simp only [Option.none_orElse]
        by_cases hlen : ps.length = 1
        · have hlb : (ps.length == 1) = true := by simp [hlen]
          rw [if_pos hlen, if_pos hlb]
          cases ps with
          | nil => simp at hlen
          | cons a rest =>
            obtain ⟨s, hs, hsne⟩ := hz a (List.mem_cons_self a rest)
            simp [List.head?, hs, hsne]
        · have hlb : ¬ (ps.length == 1) = true := by simp [hlen]
          rw [if_neg hlen, if_neg hlb]
          simp
  cases loggedInZuid with
  | none =>
    cases chatTitle with
    | none =>
      show (match ((none : Option Participant) <|> (none : Option Participant)) <|>
          (if ps.length == 1 then ps.head? else none) with
        | some p =>
            match p.zuid with
            | some s => if s = "" then none else some s
            | none => none
        | none => none)
        = (match (none : Option Participant) with
           | some p => some p
           | none =>
               match (none : Option Participant) with
               | some p => some p
               | none => if ps.length = 1 then ps.head? else none).bind
            (fun p => p.zuid)
      exact hext none none (fun p h => Option.noConfusion h)
        (fun p h => Option.noConfusion h)
    | some t =>
      have ht2 : t ≠ "" := fun he => ht (by rw [he])
      show (match ((none : Option Participant) <|>
          (if t = "" then none
           else ps.find? (fun p : Participant => p.dname == some t))) <|>
          (if ps.length == 1 then ps.head? else none) with
        | some p =>
            match p.zuid with
            | some s => if s = "" then none else some s
            | none => none
        | none => none)
        = (match (none : Option Participant) with
           | some p => some p
           | none =>
               match ps.find? (fun p : Participant => p.dname == some t) with
               | some p => some p
               | none => if ps.length = 1 then ps.head? else none).bind
            (fun p => p.zuid)
      rw [if_neg ht2]
      exact hext none _ (fun p h => Option.noConfusion h)
        (fun p h => List.mem_of_find?_eq_some h)
  | some z =>
    have hz2 : z ≠ "" := fun he => hl (by rw [he])
    have hfl : ps.find? (fun p : Participant => !(jsString p.zuid == z))
        = ps.find? (fun p : Participant => !(p.zuid == some z)) := by
      apply find?_congr
      intro p hp
      obtain ⟨s, hs, _⟩ := hz p hp
      rw [hs]
      rfl
    cases chatTitle with
    | none =>
      show (match ((if z = "" then none
          else ps.find? (fun p : Participant => !(jsString p.zuid == z))) <|>
          (none : Option Participant)) <|>
          (if ps.length == 1 then ps.head? else none) with
        | some p =>
            match p.zuid with
            | some s => if s = "" then none else some s
            | none => none
        | none => none)
        = (match ps.find? (fun p : Participant => !(p.zuid == some z)) with
           | some p => some p
           | none =>
               match (none : Option Participant) with
               | some p => some p
               | none => if ps.length = 1 then ps.head? else none).bind
            (fun p => p.zuid)
      rw [if_neg hz2, hfl]
      exact hext _ none (fun p h => List.mem_of_find?_eq_some h)
        (fun p h => Option.noConfusion h)
    | some t =>
      have ht2 : t ≠ "" := fun he => ht (by rw [he])
      show (match ((if z = "" then none
          else ps.find? (fun p : Participant => !(jsString p.zuid == z))) <|>
          (if t = "" then none
           else ps.find? (fun p : Participant => p.dname == some t))) <|>
          (if ps.length == 1 then ps.head? else none) with
        | some p =>
            match p.zuid with
            | some s => if s = "" then none else some s
            | none => none
        | none => none)
        = (match ps.find? (fun p : Participant => !(p.zuid == some z)) with
           | some p => some p
           | none =>
               match ps.find? (fun p : Participant => p.dname == some t) with
               | some p => some p
               | none => if ps.length = 1 then ps.head? else none).bind
            (fun p => p.zuid)
      rw [if_neg hz2, if_neg ht2, hfl]
      exact hext _ _ (fun p h => List.mem_of_find?_eq_some h)
        (fun p h => List.mem_of_find?_eq_some h)

/-- Witness for C3: the two-participant conversation of the spec's test
catalogue — logged-in id `"2"` resolves the other party to `"1"`; with
no logged-in id, the title heuristic still resolves `"1"`; decode
failure and non-array values resolve to `none`. -/
theorem getOtherUserId_strategies_witness :
    getOtherUserId (some (SummaryField.jval (Json.arr
        [{ zuid := some ("1"), dname := some ("Alice") },
         { zuid := some ("2"), dname := some ("Bob") }])))
      (some ("2")) (some ("Alice")) = some ("1") ∧
    getOtherUserId (some (SummaryField.jval (Json.arr
        [{ zuid := some ("1"), dname := some ("Alice") },
         { zuid := some ("2"), dname := some ("Bob") }])))
      none (some ("Alice")) = some ("1") ∧
    getOtherUserId (some (SummaryField.str ParseOutcome.failed))
      (some ("2")) (some ("Alice")) = none ∧
    getOtherUserId (some (SummaryField.jval Json.other))
      (some ("2")) (some ("Alice")) = none := by
  refine ⟨?_, ?_, ?_, ?_⟩
  · rw [(getOtherUserId_strategies
      [{ zuid := some ("1"), dname := some ("Alice") },
       { zuid := some ("2"), dname := some ("Bob") }]
      (some ("2")) (some ("Alice")) (by decide) (by decide) (by decide)).1]
    decide
  · rw [(getOtherUserId_strategies
      [{ zuid := some ("1"), dname := some ("Alice") },
       { zuid := some ("2"), dname := some ("Bob") }]
      none (some ("Alice")) (by decide) (by decide) (by decide)).1]
    decide
  · exact (getOtherUserId_strategies [] (some ("2")) (some ("Alice"))
      (by decide) (by decide) (by decide)).2.2.1
  · exact (getOtherUserId_strategies [] (some ("2")) (some ("Alice"))
      (by decide) (by decide) (by decide)).2.2.2

/-! ## `executeSearch` model lemmas -/

theorem executeSearchModel_hit (cache : CacheMap) (now : Nat) (p : SearchPayload)
    (cached : CacheEntry)
    (h1 : getProp cache (jsToLower p.parsedQuery.trimmed) = some cached)
    (h2 : cached.activeCategory = p.activeCategory)
    (h3 : now - cached.timestamp < CACHE_TIMEOUT_MS) :
    executeSearchModel cache now p
      = ⟨SearchOutcome.ok cached.results true, {}, cache⟩ := by
  simp only [executeSearchModel, h1]
  rw [if_pos ⟨h2, h3⟩]

theorem executeSearchModel_miss (cache : CacheMap) (now : Nat) (p : SearchPayload)
    (h : cacheMiss cache now p) :
    executeSearchModel cache now p = runSearchCore cache now p := by
  rcases hg : getProp cache (jsToLower p.parsedQuery.trimmed) with _ | e
  · simp only [executeSearchModel, hg]
  · simp only [executeSearchModel, hg]
    rw [if_neg (h e hg)]

theorem runSearchCore_err (cache : CacheMap) (now : Nat) (p : SearchPayload)
    (e : String)
    (hcs : runClientSearch p.chats p.users (jsToLower p.parsedQuery.trimmed)
      p.loggedUserZuid = Except.error e) :
    runSearchCore cache now p
      = ⟨SearchOutcome.rejected e,
         { exclusionsBuilt := true, localRan := true }, cache⟩ := by
  simp only [runSearchCore, hcs]

theorem runSearchCore_ok (cache : CacheMap) (now : Nat) (p : SearchPayload)
    (cs : ClientSearchOut)
    (hcs : runClientSearch p.chats p.users (jsToLower p.parsedQuery.trimmed)
      p.loggedUserZuid = Except.ok cs) :
    runSearchCore cache now p
      = ⟨SearchOutcome.ok (coreFinal p cs) false,
         { exclusionsBuilt := true, localRan := true, mergedRan := true,
           calledModules := (coreServerCalls p cs).map Prod.fst,
           enrichedChats := (coreEnriched p cs).1,
           enrichedUsers := (coreEnriched p cs).2.1 },
         setProp cache (jsToLower p.parsedQuery.trimmed)
           ⟨coreFinal p cs, now, p.activeCategory⟩⟩ := by
  simp only [runSearchCore, hcs]

theorem executeSearchModel_ok_noncache (cache : CacheMap) (now : Nat)
    (p : SearchPayload) (res : List Item) (tr : SearchTrace) (ca : CacheMap)
    (h : executeSearchModel cache now p = ⟨SearchOutcome.ok res false, tr, ca⟩) :
    runSearchCore cache now p = ⟨SearchOutcome.ok res false, tr, ca⟩ := by
  rcases hg : getProp cache (jsToLower p.parsedQuery.trimmed) with _ | e
  · simpa only [executeSearchModel, hg] using h
  · simp only [executeSearchModel, hg] at h
    by_cases hc : e.activeCategory = p.activeCategory
        ∧ now - e.timestamp < CACHE_TIMEOUT_MS
    · rw [if_pos hc] at h
      simp [SearchRun.mk.injEq, SearchOutcome.ok.injEq] at h
    · rwa [if_neg hc] at h

theorem executeSearchModel_ok_client (cache : CacheMap) (now : Nat)
    (p : SearchPayload) (res : List Item) (tr : SearchTrace) (ca : CacheMap)
    (h : executeSearchModel cache now p = ⟨SearchOutcome.ok res false, tr, ca⟩) :
    ∃ cs, runClientSearch p.chats p.users (jsToLower p.parsedQuery.trimmed)
        p.loggedUserZuid = Except.ok cs ∧ res = coreFinal p cs
        ∧ ca = setProp cache (jsToLower p.parsedQuery.trimmed)
            ⟨coreFinal p cs, now, p.activeCategory⟩ := by
  have h2 := executeSearchModel_ok_noncache cache now p res tr ca h
  cases hcs : runClientSearch p.chats p.users (jsToLower p.parsedQuery.trimmed)
      p.loggedUserZuid with
  | error e =>
    rw [runSearchCore_err cache now p e hcs] at h2
    simp [SearchRun.mk.injEq] at h2
  | ok cs =>
    rw [runSearchCore_ok cache now p cs hcs] at h2
    simp only [SearchRun.mk.injEq, SearchOutcome.ok.injEq] at h2
    exact ⟨cs, rfl, h2.1.1.symm, h2.2.2.symm⟩

theorem runSearchCore_pipeline_trace (cache : CacheMap) (now : Nat)
    (p : SearchPayload) :
    (runSearchCore cache now p).trace.exclusionsBuilt = true ∧
    (runSearchCore cache now p).trace.localRan = true := by
  unfold runSearchCore
  cases runClientSearch p.chats p.users (jsToLower p.parsedQuery.trimmed)
      p.loggedUserZuid <;> exact ⟨rfl, rfl⟩

theorem mapClientChats_error_iff (z : Option String) (l : List Item) :
    (∃ e, mapClientChats z l = Except.error e) ↔ ∃ c ∈ l, c.title = none := by
  induction l with
  | nil => simp [mapClientChats]
  | cons c cs ih =>
    cases hc : c.title with
    | none =>
      refine ⟨fun _ => ⟨c, List.mem_cons_self c cs, hc⟩, fun _ => ?_⟩
      exact ⟨"TypeError: title is not a string",
        by simp [mapClientChats, mapClientChat, hc]⟩
    | some t =>
      simp only [mapClientChats, mapClientChat, hc]
      cases hrest : mapClientChats z cs with
      | error e =>
        constructor
        · intro _
          obtain ⟨c2, hc2, ht2⟩ := ih.mp ⟨e, hrest⟩
          exact ⟨c2, List.mem_cons_of_mem _ hc2, ht2⟩
        · intro _
          exact ⟨e, rfl⟩
      | ok r =>
        constructor
        · rintro ⟨e, he⟩
          exact absurd he (by simp)
        · rintro ⟨c2, hc2, ht2⟩
          rcases List.mem_cons.mp hc2 with rfl | hc3
          · rw [hc] at ht2
            exact absurd ht2 (by simp)
          · obtain ⟨e, he⟩ := ih.mpr ⟨c2, hc3, ht2⟩
            rw [he] at hrest
            exact absurd hrest (by simp)

theorem runClientSearch_error_iff (chats users : List Item) (q : String)
    (z : Option String) :
    (∃ e, runClientSearch chats users q z = Except.error e)
      ↔ ∃ c ∈ chats.take MAX_CLIENT_CHATS, c.title = none := by
  rw [← mapClientChats_error_iff z (chats.take MAX_CLIENT_CHATS)]
  cases hm : mapClientChats z (chats.take MAX_CLIENT_CHATS) with
  | error e =>
    simp only [runClientSearch, hm]
    exact ⟨fun _ => ⟨e, rfl⟩, fun _ => ⟨e, rfl⟩⟩
  | ok r =>
    simp only [runClientSearch, hm]
    constructor
    · rintro ⟨e, he⟩
      exact absurd he (by simp)
    · rintro ⟨e, he⟩
      exact absurd he (by simp)

/-! ## Claim C4: the response-cache check -/

/-- C4. With a cache entry under the lowercased trimmed query whose
category matches and whose age is under the TTL, `executeSearch`
returns the cached list immediately — the empty trace `{}` records that
no module call was issued, no exclusion sets were built, no local
search and no merge ran — and on a category mismatch it behaves exactly
as the cache-free pipeline (which builds exclusion sets and runs the
local stage). -/
theorem executeSearch_cache_behaviour (cache : CacheMap) (now : Nat)
    (p : SearchPayload) (cached : CacheEntry)
    (h1 : getProp cache (jsToLower p.parsedQuery.trimmed) = some cached) :
    (cached.activeCategory = p.activeCategory →
      now - cached.timestamp < CACHE_TIMEOUT_MS →
      executeSearchModel cache now p
        = ⟨SearchOutcome.ok cached.results true, {}, cache⟩) ∧
    (cached.activeCategory ≠ p.activeCategory →
      executeSearchModel cache now p = runSearchCore cache now p ∧
      (executeSearchModel cache now p).trace.exclusionsBuilt = true ∧
      (executeSearchModel cache now p).trace.localRan = true) := by
  constructor
  · intro h2 h3
    exact executeSearchModel_hit cache now p cached h1 h2 h3
  · intro h2
    have he : executeSearchModel cache now p = runSearchCore cache now p := by
      simp only [executeSearchModel, h1]
      rw [if_neg (fun hc => h2 hc.1)]
    refine ⟨he, ?_, ?_⟩
    · rw [he]
      exact (runSearchCore_pipeline_trace cache now p).1
    · rw [he]
      exact (runSearchCore_pipeline_trace cache now p).2

/-- Witness for C4: a live `"x"`/`all` entry is returned from cache with
an empty effect trace; the same entry under category `users` is a miss
and the pipeline runs. -/
theorem executeSearch_cache_behaviour_witness :
    executeSearchModel wCache 2000 wPayload
      = ⟨SearchOutcome.ok [] true, {}, wCache⟩ ∧
    executeSearchModel wCache 2000 wPayloadUsersCat
      = runSearchCore wCache 2000 wPayloadUsersCat ∧
    (executeSearchModel wCache 2000 wPayloadUsersCat).trace.exclusionsBuilt = true := by
  refine ⟨?_, ?_, ?_⟩
  · exact (executeSearch_cache_behaviour wCache 2000 wPayload wCacheEntry
      (by decide)).1 (by decide) (by decide)
  · exact ((executeSearch_cache_behaviour wCache 2000 wPayloadUsersCat wCacheEntry
      (by decide)).2 (by decide)).1
  · exact ((executeSearch_cache_behaviour wCache 2000 wPayloadUsersCat wCacheEntry
      (by decide)).2 (by decide)).2.1

/-! ## Claim C5: the sparse-result remote-fetch heuristic -/

/-- C5. On a cache miss whose local stage succeeds, remote promises are
issued exactly when the local stage produced fewer than 15 chat matches
or fewer than 15 user matches; when issued, the unconditional
`globalsearch` call is among them, and when both counts reach 15 no
module call at all is made. -/
theorem executeSearch_sparse_heuristic (cache : CacheMap) (now : Nat)
    (p : SearchPayload) (cs : ClientSearchOut)
    (hmiss : cacheMiss cache now p)
    (hcs : runClientSearch p.chats p.users (jsToLower p.parsedQuery.trimmed)
      p.loggedUserZuid = Except.ok cs) :
    ((executeSearchModel cache now p).trace.calledModules ≠ [] ↔
      (cs.clientChats.length < 15 ∨ cs.clientUsers.length < 15)) ∧
    ((cs.clientChats.length < 15 ∨ cs.clientUsers.length < 15) →
      ("globalsearch") ∈ (executeSearchModel cache now p).trace.calledModules) ∧
    (¬ (cs.clientChats.length < 15 ∨ cs.clientUsers.length < 15) →
      (executeSearchModel cache now p).trace.calledModules = []) := by
  rw [executeSearchModel_miss cache now p hmiss, runSearchCore_ok cache now p cs hcs]
  by_cases hs : cs.clientChats.length < 15 ∨ cs.clientUsers.length < 15
  · have hb : (cs.clientChats.length < 15 || cs.clientUsers.length < 15) = true := by
      rcases hs with hs | hs <;> simp [hs]
    have hcall : (coreServerCalls p cs).map Prod.fst
        = ("globalsearch") :: ((buildServerPromises p.apis p.loggedUserZuid
            p.enabledModules p.activeCategory
            (buildExclusionSets p.chats p.users p.loggedUserZuid).existingChatIds
            (buildExclusionSets p.chats p.users
              p.loggedUserZuid).existingUserIds).tail.map Prod.fst) := by
      simp only [coreServerCalls, if_pos hb, buildServerPromises]
      simp
    refine ⟨⟨fun _ => hs, fun _ => ?_⟩, fun _ => ?_, fun hns => absurd hs hns⟩
    · rw [hcall]
      exact List.cons_ne_nil _ _
    · rw [hcall]
      exact List.mem_cons_self _ _
  · have hb : (cs.clientChats.length < 15 || cs.clientUsers.length < 15) = false := by
      rcases not_or.mp hs with ⟨hn1, hn2⟩
      simp [hn1, hn2]
    have hcall : (coreServerCalls p cs).map Prod.fst = [] := by
      simp only [coreServerCalls, hb]
      simp
    refine ⟨⟨fun hne => absurd hcall hne, fun h2 => absurd h2 hs⟩,
      fun h2 => absurd h2 hs, fun _ => hcall⟩

/-- Witness for C5: with one local chat match and zero user matches the
heuristic fires and `globalsearch` is called. -/
theorem executeSearch_sparse_heuristic_witness :
    ("globalsearch") ∈ (executeSearchModel [] 5 wPayload).trace.calledModules ∧
    ((executeSearchModel [] 5 wPayload).trace.calledModules ≠ [] ↔
      (wClientOut.clientChats.length < 15 ∨ wClientOut.clientUsers.length < 15)) := by
  constructor
  · exact (executeSearch_sparse_heuristic [] 5 wPayload wClientOut
      (fun e he => by simp [getProp] at he) rfl).2.1 (Or.inl (by decide))
  · exact (executeSearch_sparse_heuristic [] 5 wPayload wClientOut
      (fun e he => by simp [getProp] at he) rfl).1

/-! ## Claim C9: the unguarded `title.replace` in the local stage -/

/-- C9. The local stage maps `c.title.replace` over the first 500 chats
with no guard: it throws exactly when some chat among the first 500 has
a missing (non-string) title, in which case a cache-missing
`executeSearch` invocation is rejected with an error; when every such
title is a string the local stage cannot throw. -/
theorem runClientSearch_title_guard :
    (∀ (chats users : List Item) (q : String) (z : Option String),
      (∃ e, runClientSearch chats users q z = Except.error e)
        ↔ ∃ c ∈ chats.take MAX_CLIENT_CHATS, c.title = none) ∧
    (∀ (chats users : List Item) (q : String) (z : Option String),
      (∀ c ∈ chats.take MAX_CLIENT_CHATS, c.title ≠ none) →
      ∃ out, runClientSearch chats users q z = Except.ok out) ∧
    (∀ (cache : CacheMap) (now : Nat) (p : SearchPayload), cacheMiss cache now p →
      (∃ c ∈ p.chats.take MAX_CLIENT_CHATS, c.title = none) →
      ∃ msg, (executeSearchModel cache now p).outcome
        = SearchOutcome.rejected msg) := by
  refine ⟨runClientSearch_error_iff, ?_, ?_⟩
  · intro chats users q z hall
    cases hr : runClientSearch chats users q z with
    | error e =>
      obtain ⟨c, hc, ht⟩ := (runClientSearch_error_iff chats users q z).mp ⟨e, hr⟩
      exact absurd ht (hall c hc)
    | ok out => exact ⟨out, rfl⟩
  · intro cache now p hmiss hbad
    obtain ⟨e, he⟩ := (runClientSearch_error_iff p.chats p.users
      (jsToLower p.parsedQuery.trimmed) p.loggedUserZuid).mpr hbad
    rw [executeSearchModel_miss cache now p hmiss, runSearchCore_err cache now p e he]
    exact ⟨e, rfl⟩

/-- Witness for C9: a chat with no title makes the invocation reject;
with a string title the local stage returns results. -/
theorem runClientSearch_title_guard_witness :
    (∃ msg, (executeSearchModel [] 5 wBadPayload).outcome
      = SearchOutcome.rejected msg) ∧
    (∃ out, runClientSearch [wChat] [] ("x") none = Except.ok out) := by
  constructor
  · exact runClientSearch_title_guard.2.2 [] 5 wBadPayload
      (fun e he => by simp [getProp] at he)
      ⟨({ chatid := some ("11") } : Item), by decide, rfl⟩
  · exact runClientSearch_title_guard.2.1 [wChat] [] ("x") none
      (by decide)

/-! ## Claim C10: one cache entry per normalized query -/

theorem fst_setProp_nodup {α : Type} {m : List (String × α)} {k : String} (v : α)
    (hnd : (m.map Prod.fst).Nodup) : ((setProp m k v).map Prod.fst).Nodup := by
  cases hg : getProp m k with
  | some w =>
    rw [fst_setProp_of_present v (by simp [hg])]
    exact hnd
  | none =>
    rw [setProp_of_absent v hg]
    have hk := (getProp_eq_none_iff m k).mp hg
    simp only [List.map_append, List.map_cons, List.map_nil]
    rw [List.nodup_append]
    refine ⟨hnd, List.nodup_singleton _, ?_⟩
    intro a ha hb
    rw [List.mem_singleton] at hb
    subst hb
    exact hk ha

theorem filter_key_nil {α : Type} {m : List (String × α)} {k : String}
    (hk : k ∉ m.map Prod.fst) :
    m.filter (fun kv => kv.1 == k) = [] := by
  induction m with
  | nil => rfl
  | cons kv rest ih =>
    simp only [List.map_cons, List.mem_cons, not_or] at hk
    have hne : (kv.1 == k) = false := by
      simp only [beq_eq_false_iff_ne]
      exact fun he => hk.1 he.symm
    simp [List.filter, hne, ih hk.2]

theorem setProp_filter_key_length {α : Type} {m : List (String × α)} (k : String)
    (v : α) (hnd : (m.map Prod.fst).Nodup) :
    ((setProp m k v).filter (fun kv => kv.1 == k)).length = 1 := by
  induction m with
  | nil => simp [setProp, List.filter]
  | cons kv rest ih =>
    obtain ⟨k1, v1⟩ := kv
    simp only [List.map_cons, List.nodup_cons] at hnd
    by_cases hk : k1 = k
    · subst hk
      have hrest : rest.filter (fun kv => kv.1 == k1) = [] :=
        filter_key_nil hnd.1
      simp [setProp, List.filter, hrest]
    · have hne : (k1 == k) = false := by
        simp only [beq_eq_false_iff_ne]
        exact hk
      simp [setProp, hk, List.filter, hne, ih hnd.2]

/-- C10. The cache key is only the lowercased trimmed query text — the
category lives inside the entry: an upsert keeps keys distinct, returns
the new value at the key, leaves other keys untouched, and leaves
exactly one entry under the key; and every successful non-cache
invocation writes its result under that query-only key with its own
category, so a second category for the same query replaces the entry
rather than coexisting with it. -/
theorem cache_single_entry_per_query :
    (∀ (cache : CacheMap) (k : String) (v : CacheEntry),
      ((cache.map Prod.fst).Nodup → ((setProp cache k v).map Prod.fst).Nodup) ∧
      getProp (setProp cache k v) k = some v ∧
      (∀ k2, k2 ≠ k → getProp (setProp cache k v) k2 = getProp cache k2) ∧
      ((cache.map Prod.fst).Nodup →
        ((setProp cache k v).filter (fun kv => kv.1 == k)).length = 1)) ∧
    (∀ (cache : CacheMap) (now : Nat) (p : SearchPayload) (res : List Item)
        (tr : SearchTrace) (ca : CacheMap),
      executeSearchModel cache now p = ⟨SearchOutcome.ok res false, tr, ca⟩ →
      ca = setProp cache (jsToLower p.parsedQuery.trimmed)
        ⟨res, now, p.activeCategory⟩) := by
  constructor
  · intro cache k v
    exact ⟨fun hnd => fst_setProp_nodup v hnd,
      getProp_setProp_self cache k v,
      fun k2 hne => getProp_setProp_ne cache k k2 v hne,
      fun hnd => setProp_filter_key_length k v hnd⟩
  · intro cache now p res tr ca h
    obtain ⟨cs, _, hres, hca⟩ := executeSearchModel_ok_client cache now p res tr ca h
    rw [hca, hres]

/-- Witness for C10: a concrete run writes its result under the
query-only key `"x"`; a later write for the same query under another
category replaces the entry, leaving a single entry for the key. -/
theorem cache_single_entry_per_query_witness :
    List.Nodup ((([(("x"), wCacheEntry)] : CacheMap)).map Prod.fst) ∧
    getProp (setProp [(("x"), wCacheEntry)] ("x")
      ⟨[], 9, ("users")⟩) ("x") = some ⟨[], 9, ("users")⟩ ∧
    ((setProp [(("x"), wCacheEntry)] ("x") ⟨[], 9, ("users")⟩).filter
      (fun kv => kv.1 == ("x"))).length = 1 ∧
    (executeSearchModel [] 5 wPayload).cacheAfter
      = setProp [] (jsToLower wPayload.parsedQuery.trimmed)
          ⟨[wChatMapped], 5, wPayload.activeCategory⟩ := by
  refine ⟨by decide, (cache_single_entry_per_query.1 _ _ _).2.1, ?_, ?_⟩
  · exact (cache_single_entry_per_query.1 [(("x"), wCacheEntry)] ("x")
      ⟨[], 9, ("users")⟩).2.2.2 (by decide)
  · exact cache_single_entry_per_query.2 [] 5 wPayload [wChatMapped]
      { exclusionsBuilt := true, localRan := true, mergedRan := true,
        calledModules := [("globalsearch")], enrichedChats := [wChat],
        enrichedUsers := [] }
      [(("x"), ⟨[wChatMapped], 5, ("all")⟩)] rfl

/-! ## Claim C2: the parse/serialize round trip -/

/-- C2 counterexample: the round trip is not the identity on `filters`
and `keywords` for every raw input. Three failure modes at concrete
inputs: a value beginning with two marks (`from:@@a`) is stripped again
on re-parse; a keyword containing a recognized `key:value` token
(`from:a xfrom:a`, where `replace` removes the wrong occurrence) is
re-extracted on re-parse; a value that was only a mark (`from:@`)
serializes to `from:` which no longer matches the token pattern. -/
theorem parse_serialize_counterexample :
    getProp (parseQuery ("from:@@a")).filters ("from") = some ("@a") ∧
    getProp (parseQuery (serializeQuery (parseQuery ("from:@@a")))).filters ("from")
      = some ("a") ∧
    (parseQuery (serializeQuery (parseQuery ("from:@@a")))).filters
      ≠ (parseQuery ("from:@@a")).filters ∧
    (parseQuery ("from:a xfrom:a")).keywords = [("xfrom:a")] ∧
    (parseQuery (serializeQuery (parseQuery ("from:a xfrom:a")))).keywords
      = [("x"), ("from:a")] ∧
    getProp (parseQuery ("from:@")).filters ("from") = some ("") ∧
    getProp (parseQuery (serializeQuery (parseQuery ("from:@")))).filters ("from")
      = none := by
  decide

/-! ### Character and `takeWhile` lemmas -/

theorem word_not_space {c : Char} (h : jsIsWordChar c = true) : jsIsSpace c = false := by
  by_contra h2
  have h3 : jsIsSpace c = true := by
    cases hsp : jsIsSpace c
    · exact absurd hsp h2
    · rfl
  simp only [jsIsSpace, Bool.or_eq_true, decide_eq_true_eq] at h3
  have h4 : c = ' ' ∨ c = '\t' ∨ c = '\n' ∨ c = '\r' ∨ c = '\x0b' ∨ c = '\x0c' := by
    tauto
  rcases h4 with rfl | rfl | rfl | rfl | rfl | rfl <;> exact absurd h (by decide)

theorem takeWhile_append_drop (p : Char → Bool) (l : List Char) :
    l.takeWhile p ++ l.drop (l.takeWhile p).length = l := by
  induction l with
  | nil => rfl
  | cons c cs ih =>
    by_cases h : p c = true
    · simp [List.takeWhile_cons, h, ih]
    · simp [List.takeWhile_cons, h]

theorem mem_takeWhileL {p : Char → Bool} {l : List Char} {c : Char}
    (h : c ∈ l.takeWhile p) : p c = true := by
  induction l with
  | nil => simp [List.takeWhile] at h
  | cons a as ih =>
    rw [List.takeWhile_cons] at h
    by_cases hp : p a = true
    · rw [if_pos hp] at h
      rcases List.mem_cons.mp h with rfl | h2
      · exact hp
      · exact ih h2
    · rw [if_neg hp] at h
      simp at h

theorem takeWhile_append_all {p : Char → Bool} {a : List Char}
    (h : ∀ c ∈ a, p c = true) (b : List Char) :
    (a ++ b).takeWhile p = a ++ b.takeWhile p := by
  induction a with
  | nil => rfl
  | cons c cs ih =>
    have hc := h c (List.mem_cons_self c cs)
    simp [List.takeWhile_cons, hc,
      ih (fun x hx => h x (List.mem_cons_of_mem c hx))]

theorem takeWhile_all {p : Char → Bool} {a : List Char}
    (h : ∀ c ∈ a, p c = true) : a.takeWhile p = a := by
  have h2 := takeWhile_append_all h []
  simpa using h2

/-! ### `tryMatch` and `scanAux` lemmas -/

theorem tryMatch_some_parts {l w v rest : List Char}
    (h : tryMatch l = some (w, v, rest)) :
    w ≠ [] ∧ v ≠ [] ∧ l.length = w.length + 1 + v.length + rest.length ∧
    w = l.takeWhile jsIsWordChar := by
  unfold tryMatch at h
  by_cases hw : l.takeWhile jsIsWordChar = []
  · rw [if_pos hw] at h
    exact absurd h (by simp)
  · rw [if_neg hw] at h
    rcases hdrop : l.drop (l.takeWhile jsIsWordChar).length with _ | ⟨c, r⟩
    · rw [hdrop] at h
      exact absurd h (by simp)
    · rw [hdrop] at h
      by_cases hc : c = ':'
      · subst hc
        by_cases hv : r.takeWhile (fun c => !(jsIsSpace c)) = []
        · simp only [if_pos hv] at h
          exact absurd h (by simp)
        · simp only [if_neg hv] at h
          simp only [Option.some.injEq, Prod.mk.injEq] at h
          obtain ⟨hw2, hv2, hrest2⟩ := h
          subst hw2
          subst hv2
          subst hrest2
          refine ⟨hw, hv, ?_, rfl⟩
          have hl := takeWhile_append_drop jsIsWordChar l
          have hr := takeWhile_append_drop (fun c => !(jsIsSpace c)) r
          calc l.length
              = ((l.takeWhile jsIsWordChar)
                  ++ l.drop (l.takeWhile jsIsWordChar).length).length := by rw [hl]
            _ = (l.takeWhile jsIsWordChar).length + (':' :: r).length := by
                  rw [hdrop, List.length_append]
            _ = (l.takeWhile jsIsWordChar).length + 1
                + (r.takeWhile (fun c => !(jsIsSpace c))).length
                + (r.drop (r.takeWhile (fun c => !(jsIsSpace c))).length).length := by
                  conv_lhs => rw [← hr]
                  simp [List.length_append]
                  omega
            _ = _ := by rfl
      · simp only [if_neg hc] at h
        exact absurd h (by simp [hc])

theorem tryMatch_colon {l : List Char} {m : List Char × List Char × List Char}
    (h : tryMatch l = some m) : ':' ∈ l := by
  unfold tryMatch at h
  by_cases hw : l.takeWhile jsIsWordChar = []
  · rw [if_pos hw] at h
    exact absurd h (by simp)
  · rw [if_neg hw] at h
    rcases hdrop : l.drop (l.takeWhile jsIsWordChar).length with _ | ⟨c, r⟩
    · rw [hdrop] at h
      exact absurd h (by simp)
    · rw [hdrop] at h
      by_cases hc : c = ':'
      · subst hc
        have : ':' ∈ l.drop (l.takeWhile jsIsWordChar).length := by
          rw [hdrop]
          exact List.mem_cons_self _ _
        exact List.drop_subset _ l this
      · simp only [if_neg hc] at h
        exact absurd h (by simp [hc])

theorem scanAux_fuel (f1 : Nat) : ∀ (f2 : Nat) (l : List Char),
    l.length ≤ f1 → l.length ≤ f2 → scanAux f1 l = scanAux f2 l := by
  induction f1 with
  | zero =>
    intro f2 l h1 _
    rw [Nat.le_zero] at h1
    rw [List.length_eq_zero] at h1
    subst h1
    cases f2 <;> rfl
  | succ n ih =>
    intro f2 l h1 h2
    cases l with
    | nil => cases f2 <;> rfl
    | cons c cs =>
      cases f2 with
      | zero => simp at h2
      | succ m =>
        simp only [scanAux]
        cases hm : tryMatch (c :: cs) with
        | none =>
          simp only [List.length_cons, Nat.succ_le_succ_iff] at h1 h2
          exact ih m cs h1 h2
        | some m0 =>
          obtain ⟨w, v, rest⟩ := m0
          obtain ⟨hw, hv, hlen, _⟩ := tryMatch_some_parts hm
          simp only [List.length_cons] at h1 h2 hlen
          have hwpos : 1 ≤ w.length := List.length_pos.mpr hw
          have hr1 : rest.length ≤ n := by omega
          have hr2 : rest.length ≤ m := by omega
          show (w, v) :: scanAux n rest = (w, v) :: scanAux m rest
          rw [ih m rest hr1 hr2]

theorem scanAux_eq_scanTokens {fuel : Nat} {l : List Char}
    (h : l.length ≤ fuel) : scanAux fuel l = scanTokens l :=
  scanAux_fuel fuel l.length l h le_rfl

theorem scanTokens_cons_none {c : Char} {cs : List Char}
    (h : tryMatch (c :: cs) = none) : scanTokens (c :: cs) = scanTokens cs := by
  show scanAux (c :: cs).length (c :: cs) = scanTokens cs
  simp only [List.length_cons, scanAux, h]
  rfl

theorem scanTokens_some {l w v rest : List Char}
    (h : tryMatch l = some (w, v, rest)) :
    scanTokens l = (w, v) :: scanTokens rest := by
  cases l with
  | nil => exact absurd h (by simp [tryMatch])
  | cons c cs =>
    show scanAux (c :: cs).length (c :: cs) = _
    simp only [List.length_cons, scanAux, h]
    obtain ⟨hw, _, hlen, _⟩ := tryMatch_some_parts h
    have hr : rest.length ≤ cs.length := by
      simp only [List.length_cons] at hlen
      have : 1 ≤ w.length := List.length_pos.mpr hw
      omega
    rw [scanAux_eq_scanTokens hr]

theorem scanTokens_nil_of_nocolon {l : List Char} (h : ':' ∉ l) :
    scanTokens l = [] := by
  induction l with
  | nil => rfl
  | cons c cs ih =>
    have hm : tryMatch (c :: cs) = none := by
      cases hm2 : tryMatch (c :: cs) with
      | none => rfl
      | some m => exact absurd (tryMatch_colon hm2) h
    rw [scanTokens_cons_none hm]
    exact ih (fun h2 => h (List.mem_cons_of_mem c h2))

theorem head_after_takeWhile {p : Char → Bool} {l : List Char} {d : Char}
    (h : (l.drop (l.takeWhile p).length).head? = some d) : p d = false := by
  induction l with
  | nil => simp at h
  | cons c cs ih =>
    by_cases hp : p c = true
    · rw [List.takeWhile_cons, if_pos hp] at h
      simp only [List.length_cons, List.drop_succ_cons] at h
      exact ih h
    · rw [List.takeWhile_cons, if_neg hp] at h
      simp only [List.length_nil, List.drop_zero, List.head?_cons,
        Option.some.injEq] at h
      subst h
      exact Bool.eq_false_iff.mpr hp

theorem space_not_word : jsIsWordChar ' ' = false := by decide

theorem mem_of_getLastQ : ∀ {l : List Char} {x : Char}, l.getLast? = some x → x ∈ l := by
  intro l
  induction l with
  | nil =>
    intro x h
    simp at h
  | cons a as ih =>
    intro x h
    cases as with
    | nil =>
      simp only [List.getLast?_singleton, Option.some.injEq] at h
      simp [h]
    | cons b bs =>
      rw [List.getLast?_cons_cons] at h
      exact List.mem_cons_of_mem a (ih h)

theorem tryMatch_none_of_bad_lead {u rest : List Char}
    (hnw : ∃ c ∈ u, jsIsWordChar c = false) (hnc : ':' ∉ u) :
    tryMatch (u ++ rest) = none := by
  rcases hdrop : u.drop (u.takeWhile jsIsWordChar).length with _ | ⟨d, u2⟩
  · exfalso
    obtain ⟨c, hc, hcw⟩ := hnw
    have hsplit := takeWhile_append_drop jsIsWordChar u
    rw [hdrop, List.append_nil] at hsplit
    rw [← hsplit] at hc
    rw [mem_takeWhileL hc] at hcw
    exact Bool.noConfusion hcw
  · have hd : jsIsWordChar d = false := head_after_takeWhile (by rw [hdrop]; rfl)
    have hdu : d ∈ u := by
      have hsplit := takeWhile_append_drop jsIsWordChar u
      rw [hdrop] at hsplit
      rw [← hsplit]
      exact List.mem_append_right _ (List.mem_cons_self _ _)
    have hdc : d ≠ ':' := fun he => hnc (he ▸ hdu)
    have hall : ∀ c ∈ u.takeWhile jsIsWordChar, jsIsWordChar c = true :=
      fun c hc => mem_takeWhileL hc
    have hsplit := takeWhile_append_drop jsIsWordChar u
    rw [hdrop] at hsplit
    have htw : (u ++ rest).takeWhile jsIsWordChar = u.takeWhile jsIsWordChar := by
      conv_lhs => rw [← hsplit]
      rw [List.append_assoc, takeWhile_append_all hall]
      rw [List.cons_append, List.takeWhile_cons, if_neg (by simp [hd])]
      simp
    have hdr : (u ++ rest).drop ((u ++ rest).takeWhile jsIsWordChar).length
        = d :: (u2 ++ rest) := by
      rw [htw]
      have he : u ++ rest = u.takeWhile jsIsWordChar ++ (d :: (u2 ++ rest)) := by
        conv_lhs => rw [← hsplit]
        simp
      rw [he, List.drop_left]
    unfold tryMatch
    by_cases hw : (u ++ rest).takeWhile jsIsWordChar = []
    · rw [if_pos hw]
    · rw [if_neg hw, hdr]
      split
      · rename_i r heq
        injection heq with h1 _
        exact absurd h1 hdc
      · rfl

theorem scanTokens_lead_skip : ∀ (pre rest : List Char), ':' ∉ pre →
    (pre = [] ∨ pre.getLast? = some ' ') →
    scanTokens (pre ++ rest) = scanTokens rest := by
  intro pre
  induction pre with
  | nil =>
    intro rest _ _
    rfl
  | cons c pre' ih =>
    intro rest hnc hlast
    have hlast2 : (c :: pre').getLast? = some ' ' := by
      rcases hlast with h | h
      · exact absurd h (by simp)
      · exact h
    have hsp : ' ' ∈ c :: pre' := mem_of_getLastQ hlast2
    have hm : tryMatch ((c :: pre') ++ rest) = none :=
      tryMatch_none_of_bad_lead ⟨' ', hsp, space_not_word⟩ hnc
    rw [List.cons_append] at hm
    rw [List.cons_append, scanTokens_cons_none hm]
    refine ih rest (fun h => hnc (List.mem_cons_of_mem c h)) ?_
    cases pre' with
    | nil => exact Or.inl rfl
    | cons a as =>
      right
      rw [List.getLast?_cons_cons] at hlast2
      exact hlast2

theorem tryMatch_space_cons (X : List Char) : tryMatch (' ' :: X) = none := by
  simp [tryMatch, List.takeWhile_cons, space_not_word]

theorem tryMatch_token {k v rest2 : List Char} (hk : k ≠ [])
    (hkw : ∀ c ∈ k, jsIsWordChar c = true) (hv : v ≠ [])
    (hvs : ∀ c ∈ v, jsIsSpace c = false)
    (hrest : rest2 = [] ∨ ∃ X, rest2 = ' ' :: X) :
    tryMatch (k ++ ':' :: (v ++ rest2)) = some (k, v, rest2) := by
  have htw : (k ++ ':' :: (v ++ rest2)).takeWhile jsIsWordChar = k := by
    rw [takeWhile_append_all hkw]
    rw [List.takeWhile_cons, if_neg (by decide)]
    simp
  have hvp : ∀ c ∈ v, (fun c => !(jsIsSpace c)) c = true := by
    intro c hc
    simp [hvs c hc]
  have htv : (v ++ rest2).takeWhile (fun c => !(jsIsSpace c)) = v := by
    rcases hrest with rfl | ⟨X, rfl⟩
    · rw [List.append_nil, takeWhile_all hvp]
    · rw [takeWhile_append_all hvp]
      rw [List.takeWhile_cons, if_neg (by simp [jsIsSpace])]
      simp
  unfold tryMatch
  rw [htw, if_neg hk, List.drop_left]
  simp only [htv, if_neg hv]
  rw [List.drop_left]

theorem scanTokens_chain : ∀ (toks : List (List Char × List Char)),
    (∀ m ∈ toks, GoodTok m) → scanTokens (renderToks toks) = toks := by
  intro toks
  induction toks with
  | nil =>
    intro _
    rfl
  | cons m rest ih =>
    intro hg
    obtain ⟨k, v⟩ := m
    obtain ⟨hk, hkw, hv, hvs⟩ := hg (k, v) (List.mem_cons_self _ _)
    cases rest with
    | nil =>
      have hm : tryMatch (k ++ ':' :: (v ++ [])) = some (k, v, []) :=
        tryMatch_token hk hkw hv hvs (Or.inl rfl)
      rw [List.append_nil] at hm
      show scanTokens (k ++ ':' :: v) = [(k, v)]
      rw [scanTokens_some hm]
      rfl
    | cons m2 rest' =>
      have hm : tryMatch (k ++ ':' :: (v ++ (' ' :: renderToks (m2 :: rest'))))
          = some (k, v, ' ' :: renderToks (m2 :: rest')) :=
        tryMatch_token hk hkw hv hvs (Or.inr ⟨_, rfl⟩)
      have hshape : renderToks ((k, v) :: m2 :: rest')
          = k ++ ':' :: (v ++ (' ' :: renderToks (m2 :: rest'))) := by
        obtain ⟨k2, v2⟩ := m2
        simp [renderToks]
      rw [hshape, scanTokens_some hm, scanTokens_cons_none (tryMatch_space_cons _)]
      rw [ih (fun x hx => hg x (List.mem_cons_of_mem _ hx))]

theorem data_appendS (a b : String) : (a ++ b).data = a.data ++ b.data := rfl

theorem renderToks_cons_cons (k v : List Char) (m : List Char × List Char)
    (rest : List (List Char × List Char)) :
    renderToks ((k, v) :: m :: rest)
      = k ++ ':' :: (v ++ ' ' :: renderToks (m :: rest)) := by
  obtain ⟨k2, v2⟩ := m
  simp [renderToks]

theorem jsJoinSp_render_data : ∀ (es : List (String × String)),
    (jsJoinSp (es.map (fun e => e.1 ++ ":" ++ e.2))).data
      = renderToks (es.map (fun e => (e.1.data, e.2.data))) := by
  intro es
  induction es with
  | nil => rfl
  | cons e es' ih =>
    cases es' with
    | nil =>
      show (e.1 ++ ":" ++ e.2).data = renderToks [(e.1.data, e.2.data)]
      rw [data_appendS, data_appendS]
      show e.1.data ++ [':'] ++ e.2.data = e.1.data ++ ':' :: e.2.data
      rw [List.append_assoc]
      rfl
    | cons f fs =>
      show (e.1 ++ ":" ++ e.2 ++ " "
        ++ jsJoinSp ((f :: fs).map (fun g => g.1 ++ ":" ++ g.2))).data = _
      rw [data_appendS, data_appendS, data_appendS, data_appendS, ih]
      show e.1.data ++ [':'] ++ e.2.data ++ [' ']
          ++ renderToks ((f.1.data, f.2.data)
            :: fs.map (fun g => (g.1.data, g.2.data)))
        = renderToks ((e.1.data, e.2.data) :: (f.1.data, f.2.data)
            :: fs.map (fun g => (g.1.data, g.2.data)))
      rw [renderToks_cons_cons]
      simp

theorem startsWithL_iff_append {p l : List Char} :
    startsWithL p l = true ↔ ∃ s, l = p ++ s := by
  induction p generalizing l with
  | nil =>
    simp [startsWithL]
  | cons a as ih =>
    cases l with
    | nil => simp [startsWithL]
    | cons c cs =>
      simp only [startsWithL, Bool.and_eq_true, decide_eq_true_eq, ih]
      constructor
      · rintro ⟨rfl, s, rfl⟩
        exact ⟨s, rfl⟩
      · rintro ⟨s, hs⟩
        injection hs with h1 h2
        exact ⟨h1.symm, s, h2⟩

theorem startsWithL_self_append (p s : List Char) : startsWithL p (p ++ s) = true :=
  startsWithL_iff_append.mpr ⟨s, rfl⟩

theorem startsWithL_false_of_sep {p B2 rest : List Char}
    (hcolp : ':' ∈ p) (hsp : ' ' ∉ p) (hcB : ':' ∉ B2) (hBsp : ' ' ∈ B2) :
    startsWithL p (B2 ++ rest) = false := by
  cases hb : startsWithL p (B2 ++ rest) with
  | false => rfl
  | true =>
    exfalso
    obtain ⟨s, hs⟩ := startsWithL_iff_append.mp hb
    rcases List.append_eq_append_iff.mp hs with ⟨a2, ha, _⟩ | ⟨c2, hc, _⟩
    · refine hsp ?_
      rw [ha]
      exact List.mem_append_left a2 hBsp
    · refine hcB ?_
      rw [hc]
      exact List.mem_append_left c2 hcolp

theorem replaceFirst_cons (c : Char) (l p : List Char) :
    replaceFirst (c :: l) p
      = if startsWithL p (c :: l) = true then (c :: l).drop p.length
        else c :: replaceFirst l p := by
  rfl

theorem replaceFirst_exact {p : List Char} (suffix : List Char) (hp : p ≠ []) :
    replaceFirst (p ++ suffix) p = suffix := by
  cases p with
  | nil => exact absurd rfl hp
  | cons c cs =>
    rw [List.cons_append, replaceFirst_cons]
    have hc2 : startsWithL (c :: cs) (c :: (cs ++ suffix)) = true :=
      startsWithL_self_append (c :: cs) suffix
    rw [if_pos hc2]
    show ((c :: cs) ++ suffix).drop (c :: cs).length = suffix
    exact List.drop_left _ _

theorem replaceFirst_skip_sep : ∀ (B rest p : List Char), ':' ∈ p → ' ' ∉ p →
    ':' ∉ B → (B = [] ∨ B.getLast? = some ' ') →
    replaceFirst (B ++ rest) p = B ++ replaceFirst rest p := by
  intro B
  induction B with
  | nil =>
    intro rest p _ _ _ _
    rfl
  | cons c B' ih =>
    intro rest p hcolp hsp hcB hlast
    have hlast2 : (c :: B').getLast? = some ' ' := by
      rcases hlast with h | h
      · exact absurd h (by simp)
      · exact h
    have hspB : ' ' ∈ c :: B' := mem_of_getLastQ hlast2
    have hsw : startsWithL p (c :: (B' ++ rest)) = false :=
      startsWithL_false_of_sep hcolp hsp hcB hspB
    have hlast3 : B' = [] ∨ B'.getLast? = some ' ' := by
      cases B' with
      | nil => exact Or.inl rfl
      | cons a as =>
        right
        rw [List.getLast?_cons_cons] at hlast2
        exact hlast2
    rw [List.cons_append, replaceFirst_cons, if_neg (by simp [hsw]),
      ih rest p hcolp hsp (fun h => hcB (List.mem_cons_of_mem c h)) hlast3]
    rfl

theorem replaceFirst_at_token (B p suffix : List Char)
    (hlast : B = [] ∨ B.getLast? = some ' ') (hcB : ':' ∉ B)
    (hcolp : ':' ∈ p) (hsp : ' ' ∉ p) (hp : p ≠ []) :
    replaceFirst (B ++ (p ++ suffix)) p = B ++ suffix := by
  rw [replaceFirst_skip_sep B (p ++ suffix) p hcolp hsp hcB hlast,
    replaceFirst_exact suffix hp]

theorem tokText_colon_mem (m : List Char × List Char) : ':' ∈ m.1 ++ ':' :: m.2 :=
  List.mem_append_right _ (List.mem_cons_self _ _)

theorem tokText_no_space {m : List Char × List Char} (hg : GoodTok m) :
    ' ' ∉ m.1 ++ ':' :: m.2 := by
  obtain ⟨_, hkw, _, hvs⟩ := hg
  intro h
  rcases List.mem_append.mp h with h | h
  · exact absurd (hkw _ h) (by decide)
  · rcases List.mem_cons.mp h with h | h
    · exact absurd h (by decide)
    · exact absurd (hvs _ h) (by decide)

theorem tokText_ne_nil (m : List Char × List Char) : m.1 ++ ':' :: m.2 ≠ [] := by
  simp

theorem removeAll_chain : ∀ (toks : List (List Char × List Char)) (t0 : List Char),
    toks ≠ [] → (∀ m ∈ toks, GoodTok m) → ':' ∉ t0 →
    (t0 = [] ∨ t0.getLast? = some ' ') →
    (toks.map (fun m => m.1 ++ ':' :: m.2)).foldl replaceFirst
        (t0 ++ renderToks toks)
      = t0 ++ List.replicate (toks.length - 1) ' ' := by
  intro toks
  induction toks with
  | nil =>
    intro t0 h _ _ _
    exact absurd rfl h
  | cons m rest ih =>
    obtain ⟨k, v⟩ := m
    intro t0 _ hg hc hlast
    have hgm := hg (k, v) (List.mem_cons_self _ _)
    have hcolp : ':' ∈ k ++ ':' :: v := tokText_colon_mem (k, v)
    have hsp : ' ' ∉ k ++ ':' :: v := tokText_no_space hgm
    have hpne : k ++ ':' :: v ≠ [] := tokText_ne_nil (k, v)
    cases rest with
    | nil =>
      show replaceFirst (t0 ++ renderToks [(k, v)]) (k ++ ':' :: v) = t0 ++ []
      have h2 := replaceFirst_at_token t0 (k ++ ':' :: v) [] hlast hc hcolp hsp hpne
      rw [List.append_nil] at h2
      exact h2
    | cons m2 rest' =>
      show List.foldl replaceFirst
          (replaceFirst (t0 ++ renderToks ((k, v) :: m2 :: rest')) (k ++ ':' :: v))
          ((m2 :: rest').map (fun m => m.1 ++ ':' :: m.2))
        = t0 ++ List.replicate (m2 :: rest').length ' '
      have hshape : t0 ++ renderToks ((k, v) :: m2 :: rest')
          = t0 ++ ((k ++ ':' :: v) ++ (' ' :: renderToks (m2 :: rest'))) := by
        rw [renderToks_cons_cons]
        simp
      rw [hshape, replaceFirst_at_token t0 (k ++ ':' :: v)
        (' ' :: renderToks (m2 :: rest')) hlast hc hcolp hsp hpne]
      have h2 := ih (t0 ++ [' ']) (by simp)
        (fun x hx => hg x (List.mem_cons_of_mem _ hx))
        (by
          intro hmem
          rcases List.mem_append.mp hmem with h | h
          · exact hc h
          · simp at h)
        (Or.inr (List.getLast?_concat t0))
      rw [show t0 ++ (' ' :: renderToks (m2 :: rest'))
          = (t0 ++ [' ']) ++ renderToks (m2 :: rest') from by simp]
      rw [h2]
      simp [List.replicate_succ]

theorem bool_eq_false {b : Bool} (h : ¬ b = true) : b = false := by
  cases h2 : b
  · rfl
  · exact absurd h2 h

theorem collapse_true_replicate (j : Nat) :
    collapseAux true (List.replicate j ' ') = [] := by
  induction j with
  | zero => rfl
  | succ n ih =>
    rw [List.replicate_succ]
    exact ih

theorem collapse_sp_run (j : Nat) :
    collapseAux false (' ' :: List.replicate j ' ') = [' '] := by
  show ' ' :: collapseAux true (List.replicate j ' ') = [' ']
  rw [collapse_true_replicate]

theorem trim_collapse_replicate (j : Nat) :
    jsTrimL (collapseWs (List.replicate j ' ')) = [] := by
  cases j with
  | zero => rfl
  | succ n =>
    show jsTrimL (collapseAux false (' ' :: List.replicate n ' ')) = []
    rw [collapse_sp_run]
    rfl

theorem collapse_cons_ns {d : Char} (b : Bool) (rest : List Char)
    (hd : jsIsSpace d = false) :
    collapseAux b (d :: rest) = d :: collapseAux false rest := by
  cases b <;> simp [collapseAux, hd]

theorem collapse_cons_sp_false {d : Char} (rest : List Char)
    (hd : jsIsSpace d = true) :
    collapseAux false (d :: rest) = ' ' :: collapseAux true rest := by
  simp [collapseAux, hd]

theorem collapse_cons_sp_true {d : Char} (rest : List Char)
    (hd : jsIsSpace d = true) :
    collapseAux true (d :: rest) = collapseAux true rest := by
  simp [collapseAux, hd]

theorem collapse_true_head : ∀ (l : List Char),
    ∀ d ∈ (collapseAux true l).head?, jsIsSpace d = false := by
  intro l
  induction l with
  | nil =>
    intro d hd
    simp [collapseAux] at hd
  | cons c cs ih =>
    intro d hd
    by_cases hc : jsIsSpace c = true
    · rw [collapse_cons_sp_true cs hc] at hd
      exact ih d hd
    · rw [collapse_cons_ns true cs (bool_eq_false hc)] at hd
      simp at hd
      subst hd
      exact bool_eq_false hc

theorem collapse_only_blank : ∀ (b : Bool) (l : List Char),
    ∀ c ∈ collapseAux b l, jsIsSpace c = true → c = ' ' := by
  intro b l
  induction l generalizing b with
  | nil =>
    intro c hc
    simp [collapseAux] at hc
  | cons a as ih =>
    intro c hc hsp
    by_cases ha : jsIsSpace a = true
    · cases b with
      | true =>
        rw [collapse_cons_sp_true as ha] at hc
        exact ih true c hc hsp
      | false =>
        rw [collapse_cons_sp_false as ha] at hc
        rcases List.mem_cons.mp hc with h | h
        · exact h
        · exact ih true c h hsp
    · rw [collapse_cons_ns b as (bool_eq_false ha)] at hc
      rcases List.mem_cons.mp hc with h | h
      · subst h
        exact absurd hsp (by simp [bool_eq_false ha])
      · exact ih false c h hsp

theorem collapse_no_two_sp : ∀ (b : Bool) (l : List Char),
    List.Chain' (fun a b => jsIsSpace a = false ∨ jsIsSpace b = false)
      (collapseAux b l) := by
  intro b l
  induction l generalizing b with
  | nil => exact List.chain'_nil
  | cons a as ih =>
    by_cases ha : jsIsSpace a = true
    · cases b with
      | true =>
        rw [collapse_cons_sp_true as ha]
        exact ih true
      | false =>
        rw [collapse_cons_sp_false as ha]
        rw [List.chain'_cons']
        exact ⟨fun d hd => Or.inr (collapse_true_head as d hd), ih true⟩
    · rw [collapse_cons_ns b as (bool_eq_false ha)]
      rw [List.chain'_cons']
      exact ⟨fun d _ => Or.inl (bool_eq_false ha), ih false⟩

theorem chainQ_of_suffix {R : Char → Char → Prop} {l1 l2 : List Char}
    (h : l1 <:+ l2) (hc : List.Chain' R l2) : List.Chain' R l1 := by
  obtain ⟨pre, rfl⟩ := h
  exact (List.chain'_append.mp hc).2.1

theorem chainQ_reverse_symm {R : Char → Char → Prop}
    (hs : ∀ a b, R a b → R b a) {l : List Char}
    (h : List.Chain' R l) : List.Chain' R l.reverse := by
  rw [List.chain'_reverse]
  exact List.Chain'.imp (fun a b hab => hs a b hab) h

theorem dropWhile_headQ {p : Char → Bool} : ∀ (l : List Char),
    ∀ d ∈ (l.dropWhile p).head?, p d = false := by
  intro l
  induction l with
  | nil =>
    intro d hd
    simp at hd
  | cons c cs ih =>
    intro d hd
    rw [List.dropWhile_cons] at hd
    by_cases hc : p c = true
    · rw [if_pos hc] at hd
      exact ih d hd
    · rw [if_neg hc] at hd
      simp at hd
      subst hd
      exact bool_eq_false hc

theorem getLastQ_some : ∀ (l : List Char), l ≠ [] → ∃ x, l.getLast? = some x := by
  intro l
  induction l with
  | nil =>
    intro h
    exact absurd rfl h
  | cons a as ih =>
    intro _
    cases as with
    | nil => exact ⟨a, by simp⟩
    | cons b bs =>
      obtain ⟨x, hx⟩ := ih (by simp)
      refine ⟨x, ?_⟩
      rw [List.getLast?_cons_cons]
      exact hx

theorem getLastQ_of_suffix {l1 l2 : List Char} (h : l1 <:+ l2) (hne : l1 ≠ []) :
    l1.getLast? = l2.getLast? := by
  obtain ⟨pre, rfl⟩ := h
  obtain ⟨x, hx⟩ := getLastQ_some l1 hne
  rw [List.getLast?_append, hx]
  rfl

theorem mem_jsTrimL {c : Char} {l : List Char} (h : c ∈ jsTrimL l) : c ∈ l := by
  unfold jsTrimL at h
  rw [List.mem_reverse] at h
  have h2 : c ∈ (dropSp l).reverse :=
    List.Sublist.mem h (List.dropWhile_suffix jsIsSpace).sublist
  rw [List.mem_reverse] at h2
  exact List.Sublist.mem h2 (List.dropWhile_suffix jsIsSpace).sublist

theorem jsTrimL_headQ (l : List Char) :
    ∀ d ∈ (jsTrimL l).head?, jsIsSpace d = false := by
  intro d hd
  unfold jsTrimL at hd
  rw [List.head?_reverse] at hd
  by_cases hne : List.dropWhile jsIsSpace (dropSp l).reverse = []
  · rw [hne] at hd
    simp at hd
  · rw [getLastQ_of_suffix (List.dropWhile_suffix _) hne] at hd
    rw [List.getLast?_reverse] at hd
    exact dropWhile_headQ l d hd

theorem jsTrimL_lastQ (l : List Char) :
    ∀ d ∈ (jsTrimL l).getLast?, jsIsSpace d = false := by
  intro d hd
  unfold jsTrimL at hd
  rw [List.getLast?_reverse] at hd
  exact dropWhile_headQ _ d hd

theorem jsTrimL_chain {l : List Char}
    (h : List.Chain' (fun a b => jsIsSpace a = false ∨ jsIsSpace b = false) l) :
    List.Chain' (fun a b => jsIsSpace a = false ∨ jsIsSpace b = false)
      (jsTrimL l) := by
  unfold jsTrimL
  refine chainQ_reverse_symm (fun a b hab => hab.symm) ?_
  refine chainQ_of_suffix (List.dropWhile_suffix _) ?_
  refine chainQ_reverse_symm (fun a b hab => hab.symm) ?_
  exact chainQ_of_suffix (List.dropWhile_suffix _) h

theorem collapse_id_canon : ∀ (t : List Char),
    List.Chain' (fun a b => jsIsSpace a = false ∨ jsIsSpace b = false) t →
    (∀ c ∈ t, jsIsSpace c = true → c = ' ') →
    collapseAux false t = t := by
  intro t
  induction t with
  | nil =>
    intro _ _
    rfl
  | cons c cs ih =>
    intro hch ho
    rcases List.chain'_cons'.mp hch with ⟨hhd, hch2⟩
    by_cases hc : jsIsSpace c = true
    · have hcb : c = ' ' := ho c (List.mem_cons_self _ _) hc
      rw [collapse_cons_sp_false cs hc, ← hcb]
      congr 1
      cases cs with
      | nil => rfl
      | cons d ds =>
        have hd : jsIsSpace d = false := by
          rcases hhd d (by simp) with h | h
          · exact absurd hc (by simp [h])
          · exact h
        rw [collapse_cons_ns true ds hd]
        have h2 := ih hch2 (fun x hx hsx => ho x (List.mem_cons_of_mem c hx) hsx)
        rw [collapse_cons_ns false ds hd] at h2
        exact h2
    · rw [collapse_cons_ns false cs (bool_eq_false hc)]
      congr 1
      exact ih hch2 (fun x hx hsx => ho x (List.mem_cons_of_mem c hx) hsx)

theorem collapse_app_spaces : ∀ (t : List Char) (j : Nat),
    List.Chain' (fun a b => jsIsSpace a = false ∨ jsIsSpace b = false) t →
    (∀ c ∈ t, jsIsSpace c = true → c = ' ') →
    (∀ d ∈ t.getLast?, jsIsSpace d = false) →
    collapseAux false (t ++ ' ' :: List.replicate j ' ') = t ++ [' '] := by
  intro t
  induction t with
  | nil =>
    intro j _ _ _
    exact collapse_sp_run j
  | cons c cs ih =>
    intro j hch ho hlast
    rcases List.chain'_cons'.mp hch with ⟨hhd, hch2⟩
    by_cases hc : jsIsSpace c = true
    · have hcb : c = ' ' := ho c (List.mem_cons_self _ _) hc
      cases cs with
      | nil => exact absurd hc (by simp [hlast c (by simp)])
      | cons d ds =>
        have hd : jsIsSpace d = false := by
          rcases hhd d (by simp) with h | h
          · exact absurd hc (by simp [h])
          · exact h
        have h2 := ih j hch2 (fun x hx hsx => ho x (List.mem_cons_of_mem c hx) hsx)
          (fun x hx => hlast x (by rw [List.getLast?_cons_cons]; exact hx))
        rw [List.cons_append, collapse_cons_ns false _ hd] at h2
        have h3 : collapseAux false (ds ++ ' ' :: List.replicate j ' ')
            = ds ++ [' '] := by
          have h4 := congrArg List.tail h2
          simpa using h4
        show collapseAux false (c :: d :: (ds ++ ' ' :: List.replicate j ' '))
          = c :: d :: (ds ++ [' '])
        rw [collapse_cons_sp_false _ hc, collapse_cons_ns true _ hd, h3, hcb]
    · show collapseAux false (c :: (cs ++ ' ' :: List.replicate j ' '))
        = c :: (cs ++ [' '])
      rw [collapse_cons_ns false _ (bool_eq_false hc)]
      congr 1
      cases cs with
      | nil => exact collapse_sp_run j
      | cons d ds =>
        exact ih j hch2 (fun x hx hsx => ho x (List.mem_cons_of_mem c hx) hsx)
          (fun x hx => hlast x (by rw [List.getLast?_cons_cons]; exact hx))

theorem dropWhile_eq_self_of_headQ {p : Char → Bool} {l : List Char}
    (h : ∀ d ∈ l.head?, p d = false) : l.dropWhile p = l := by
  cases l with
  | nil => rfl
  | cons c cs =>
    rw [List.dropWhile_cons, if_neg (by simp [h c (by simp)])]

theorem jsTrimL_id {t : List Char}
    (hhd : ∀ d ∈ t.head?, jsIsSpace d = false)
    (hlast : ∀ d ∈ t.getLast?, jsIsSpace d = false) :
    jsTrimL t = t := by
  unfold jsTrimL dropSp
  rw [dropWhile_eq_self_of_headQ hhd]
  rw [dropWhile_eq_self_of_headQ (by
    intro d hd
    rw [List.head?_reverse] at hd
    exact hlast d hd)]
  rw [List.reverse_reverse]

theorem jsTrimL_app_sp {t : List Char} (hne : t ≠ [])
    (hhd : ∀ d ∈ t.head?, jsIsSpace d = false)
    (hlast : ∀ d ∈ t.getLast?, jsIsSpace d = false) :
    jsTrimL (t ++ [' ']) = t := by
  unfold jsTrimL dropSp
  have h1 : (t ++ [' ']).dropWhile jsIsSpace = t ++ [' '] := by
    refine dropWhile_eq_self_of_headQ ?_
    intro d hd
    cases t with
    | nil => exact absurd rfl hne
    | cons c cs =>
      rw [List.cons_append] at hd
      simp at hd
      subst hd
      exact hhd c (by simp)
  rw [h1, List.reverse_append]
  show ((' ' :: t.reverse).dropWhile jsIsSpace).reverse = t
  rw [List.dropWhile_cons, if_pos (by decide)]
  rw [dropWhile_eq_self_of_headQ (by
    intro d hd
    rw [List.head?_reverse] at hd
    exact hlast d hd)]
  rw [List.reverse_reverse]

theorem trimmed_canon (r : List Char) :
    List.Chain' (fun a b => jsIsSpace a = false ∨ jsIsSpace b = false)
      (jsTrimL (collapseWs r))
    ∧ (∀ c ∈ jsTrimL (collapseWs r), jsIsSpace c = true → c = ' ')
    ∧ (∀ d ∈ (jsTrimL (collapseWs r)).head?, jsIsSpace d = false)
    ∧ (∀ d ∈ (jsTrimL (collapseWs r)).getLast?, jsIsSpace d = false) := by
  refine ⟨jsTrimL_chain (collapse_no_two_sp false r), ?_,
    jsTrimL_headQ _, jsTrimL_lastQ _⟩
  intro c hc hsp
  exact collapse_only_blank false r c (mem_jsTrimL hc) hsp

theorem tryMatch_val_nonspace {l w v rest : List Char}
    (h : tryMatch l = some (w, v, rest)) : ∀ c ∈ v, jsIsSpace c = false := by
  unfold tryMatch at h
  by_cases hw : l.takeWhile jsIsWordChar = []
  · rw [if_pos hw] at h
    exact absurd h (by simp)
  · rw [if_neg hw] at h
    rcases hdrop : l.drop (l.takeWhile jsIsWordChar).length with _ | ⟨c, r⟩
    · rw [hdrop] at h
      exact absurd h (by simp)
    · rw [hdrop] at h
      by_cases hc : c = ':'
      · subst hc
        by_cases hv : r.takeWhile (fun c => !(jsIsSpace c)) = []
        · simp only [if_pos hv] at h
          exact absurd h (by simp)
        · simp only [if_neg hv] at h
          simp only [Option.some.injEq, Prod.mk.injEq] at h
          obtain ⟨_, hv2, _⟩ := h
          intro c2 hc2
          rw [← hv2] at hc2
          have h3 := mem_takeWhileL hc2
          simpa using h3
      · simp only [if_neg hc] at h
        exact absurd h (by simp [hc])

theorem scanTokensGoodAux : ∀ (n : Nat) (l : List Char), l.length ≤ n →
    ∀ m ∈ scanTokens l, GoodTok m := by
  intro n
  induction n with
  | zero =>
    intro l hl m hm
    rw [Nat.le_zero, List.length_eq_zero] at hl
    subst hl
    simp [scanTokens, scanAux] at hm
  | succ k ih =>
    intro l hl m hm
    cases l with
    | nil => simp [scanTokens, scanAux] at hm
    | cons c cs =>
      cases htm : tryMatch (c :: cs) with
      | none =>
        rw [scanTokens_cons_none htm] at hm
        refine ih cs ?_ m hm
        simp only [List.length_cons] at hl
        omega
      | some m0 =>
        obtain ⟨w, v, rest⟩ := m0
        rw [scanTokens_some htm] at hm
        obtain ⟨hw, hv, hlen, hwdef⟩ := tryMatch_some_parts htm
        rcases List.mem_cons.mp hm with h | h
        · subst h
          refine ⟨hw, ?_, hv, tryMatch_val_nonspace htm⟩
          intro ch hch
          rw [hwdef] at hch
          exact mem_takeWhileL hch
        · refine ih rest ?_ m h
          simp only [List.length_cons] at hl hlen
          have hwpos : 1 ≤ w.length := List.length_pos.mpr hw
          omega

theorem scanTokens_all_good (l : List Char) : ∀ m ∈ scanTokens l, GoodTok m :=
  scanTokensGoodAux l.length l le_rfl

theorem stripAtHash_chars {c : Char} {s : String} (h : c ∈ (stripAtHash s).data) :
    c ∈ s.data := by
  obtain ⟨l⟩ := s
  cases l with
  | nil => exact h
  | cons a as =>
    by_cases ha : (a = '@' || a = '#') = true
    · have h3 : stripAtHash ⟨a :: as⟩ = ⟨as⟩ := by
        show (if a = '@' || a = '#' then (⟨as⟩ : String) else ⟨a :: as⟩) = ⟨as⟩
        rw [if_pos ha]
      rw [h3] at h
      exact List.mem_cons_of_mem a h
    · have h3 : stripAtHash ⟨a :: as⟩ = ⟨a :: as⟩ := by
        show (if a = '@' || a = '#' then (⟨as⟩ : String) else ⟨a :: as⟩)
          = ⟨a :: as⟩
        rw [if_neg ha]
      rw [h3] at h
      exact h

theorem stripAtHash_eq_self {s : String} (h1 : s.data.head? ≠ some '@')
    (h2 : s.data.head? ≠ some '#') : stripAtHash s = s := by
  obtain ⟨l⟩ := s
  cases l with
  | nil => rfl
  | cons a as =>
    show (if a = '@' || a = '#' then (⟨as⟩ : String) else ⟨a :: as⟩) = ⟨a :: as⟩
    rw [if_neg (by
      simp only [Bool.or_eq_true, decide_eq_true_eq]
      rintro (rfl | rfl)
      · exact h1 rfl
      · exact h2 rfl)]

theorem parseStep_eq (vt : List String)
    (acc : List (String × String) × List (List Char))
    (m : List Char × List Char) :
    parseStep vt acc m
      = if vt.contains ⟨toLowerL m.1⟩ = true
        then (setProp acc.1 ⟨toLowerL m.1⟩ (stripAtHash ⟨m.2⟩),
              acc.2 ++ [m.1 ++ ':' :: m.2])
        else acc := rfl

theorem parse_fold_inv (vt : List String) : ∀ (toks : List (List Char × List Char))
    (acc : List (String × String) × List (List Char)),
    (∀ m ∈ toks, GoodTok m) →
    (∀ kv ∈ acc.1, vt.contains kv.1 = true
      ∧ ∀ c ∈ kv.2.data, jsIsSpace c = false) →
    (acc.1.map Prod.fst).Nodup →
    (∀ kv ∈ (toks.foldl (parseStep vt) acc).1,
        vt.contains kv.1 = true ∧ ∀ c ∈ kv.2.data, jsIsSpace c = false)
      ∧ ((toks.foldl (parseStep vt) acc).1.map Prod.fst).Nodup := by
  intro toks
  induction toks with
  | nil =>
    intro acc _ h1 h2
    exact ⟨h1, h2⟩
  | cons m rest ih =>
    intro acc hg h1 h2
    obtain ⟨_, _, _, hvs⟩ := hg m (List.mem_cons_self _ _)
    show (∀ kv ∈ (rest.foldl (parseStep vt) (parseStep vt acc m)).1,
        vt.contains kv.1 = true ∧ ∀ c ∈ kv.2.data, jsIsSpace c = false)
      ∧ ((rest.foldl (parseStep vt) (parseStep vt acc m)).1.map Prod.fst).Nodup
    refine ih (parseStep vt acc m) (fun x hx => hg x (List.mem_cons_of_mem _ hx))
      ?_ ?_
    · intro kv hkv
      rw [parseStep_eq] at hkv
      by_cases hct : vt.contains (⟨toLowerL m.1⟩ : String) = true
      · rw [if_pos hct] at hkv
        rcases (mem_setProp_iff h2 kv).mp hkv with h | ⟨h, _⟩
        · subst h
          refine ⟨hct, ?_⟩
          intro c hc
          exact hvs c (stripAtHash_chars hc)
        · exact h1 kv h
      · rw [if_neg hct] at hkv
        exact h1 kv hkv
    · rw [parseStep_eq]
      by_cases hct : vt.contains (⟨toLowerL m.1⟩ : String) = true
      · rw [if_pos hct]
        exact fst_setProp_nodup _ h2
      · rw [if_neg hct]
        exact h2

theorem parse_fold_on_tokens (vt : List String) :
    ∀ (es : List (String × String))
      (acc : List (String × String) × List (List Char)),
    (∀ e ∈ es, vt.contains e.1 = true ∧ toLowerL e.1.data = e.1.data
      ∧ stripAtHash e.2 = e.2) →
    (es.map (fun e => (e.1.data, e.2.data))).foldl (parseStep vt) acc
      = (es.foldl (fun a e => setProp a e.1 e.2) acc.1,
         acc.2 ++ es.map (fun e => e.1.data ++ ':' :: e.2.data)) := by
  intro es
  induction es with
  | nil =>
    intro acc _
    simp
  | cons e es' ih =>
    intro acc he
    obtain ⟨hct, hlow, hstrip⟩ := he e (List.mem_cons_self _ _)
    show (es'.map (fun e => (e.1.data, e.2.data))).foldl (parseStep vt)
        (parseStep vt acc (e.1.data, e.2.data)) = _
    have hkey : (⟨toLowerL e.1.data⟩ : String) = e.1 := by
      show (⟨toLowerL e.1.data⟩ : String) = (⟨e.1.data⟩ : String)
      rw [hlow]
    have hstep : parseStep vt acc (e.1.data, e.2.data)
        = (setProp acc.1 e.1 e.2, acc.2 ++ [e.1.data ++ ':' :: e.2.data]) := by
      rw [parseStep_eq, hkey, if_pos hct,
        show stripAtHash (⟨e.2.data⟩ : String) = e.2 from hstrip]
    rw [hstep, ih _ (fun x hx => he x (List.mem_cons_of_mem _ hx))]
    simp

theorem setProp_absent_append {α : Type} {m : List (String × α)} {k : String}
    (v : α) (h : k ∉ m.map Prod.fst) : setProp m k v = m ++ [(k, v)] :=
  setProp_of_absent v ((getProp_eq_none_iff m k).mpr h)

theorem foldl_setProp_eq : ∀ (es acc : List (String × String)),
    ((acc ++ es).map Prod.fst).Nodup →
    es.foldl (fun a e => setProp a e.1 e.2) acc = acc ++ es := by
  intro es
  induction es with
  | nil =>
    intro acc _
    simp
  | cons e es' ih =>
    intro acc hnd
    have hknot : e.1 ∉ acc.map Prod.fst := by
      rw [List.map_append] at hnd
      rcases List.nodup_append.mp hnd with ⟨_, _, hdisj⟩
      intro hmem
      exact hdisj hmem (by simp)
    show es'.foldl (fun a e => setProp a e.1 e.2) (setProp acc e.1 e.2)
      = acc ++ e :: es'
    calc es'.foldl (fun a e => setProp a e.1 e.2) (setProp acc e.1 e.2)
        = es'.foldl (fun a e => setProp a e.1 e.2) (acc ++ [e]) := by
          rw [setProp_absent_append e.2 hknot]
      _ = (acc ++ [e]) ++ es' := by
          refine ih (acc ++ [e]) ?_
          rw [show (acc ++ [e]) ++ es' = acc ++ e :: es' from by simp]
          exact hnd
      _ = acc ++ e :: es' := by simp

theorem insertEntry_perm (e : String × String) : ∀ (l : List (String × String)),
    List.Perm (insertEntry e l) (e :: l) := by
  intro l
  induction l with
  | nil => exact List.Perm.refl _
  | cons f fs ih =>
    show (if f.1 < e.1 then f :: insertEntry e fs else e :: f :: fs).Perm
      (e :: f :: fs)
    by_cases h : f.1 < e.1
    · rw [if_pos h]
      exact (ih.cons f).trans (List.Perm.swap e f fs)
    · rw [if_neg h]

theorem sortEntries_perm : ∀ (l : List (String × String)),
    List.Perm (sortEntries l) l := by
  intro l
  induction l with
  | nil => exact List.Perm.refl _
  | cons e es ih =>
    show (insertEntry e (sortEntries es)).Perm (e :: es)
    exact (insertEntry_perm e (sortEntries es)).trans (ih.cons e)

theorem getProp_eq_of_perm {l l' : List (String × String)}
    (hp : List.Perm l l') (hnd : (l.map Prod.fst).Nodup) (k : String) :
    getProp l k = getProp l' k := by
  have hnd' : (l'.map Prod.fst).Nodup := ((hp.map Prod.fst).nodup_iff).mp hnd
  cases hg : getProp l k with
  | some v =>
    have hmem := getProp_mem hg
    have hmem' : (k, v) ∈ l' := hp.mem_iff.mp hmem
    exact (getProp_of_mem_nodup hnd' hmem').symm
  | none =>
    rw [getProp_eq_none_iff] at hg
    have hnot : k ∉ l'.map Prod.fst :=
      fun hmem => hg (((hp.map Prod.fst).mem_iff).mpr hmem)
    exact ((getProp_eq_none_iff l' k).mpr hnot).symm

theorem filter_tokens_facts : ∀ s ∈ FILTER_TOKENS,
    toLowerL s.data = s.data ∧ s.data ≠ []
      ∧ (∀ c ∈ s.data, jsIsWordChar c = true) := by
  decide

theorem parseQuery_filters_eq (raw : String) (vt : List String) :
    (parseQuery raw vt).filters
      = ((scanTokens raw.data).foldl (parseStep vt) ([], [])).1 := rfl

theorem parseQuery_trimmed_eq (raw : String) (vt : List String) :
    (parseQuery raw vt).trimmed
      = ⟨jsTrimL (collapseWs
          ((((scanTokens raw.data).foldl (parseStep vt) ([], [])).2).foldl
            replaceFirst raw.data))⟩ := rfl

theorem parseQuery_keywords_eq (raw : String) (vt : List String) :
    (parseQuery raw vt).keywords
      = if (parseQuery raw vt).trimmed = "" then []
        else (splitWsL (parseQuery raw vt).trimmed.data).map
          (fun w => (⟨w⟩ : String)) := rfl

theorem parseQuery_keywords_of_trimmed {s1 s2 : String} {vt1 vt2 : List String}
    (h : (parseQuery s1 vt1).trimmed = (parseQuery s2 vt2).trimmed) :
    (parseQuery s1 vt1).keywords = (parseQuery s2 vt2).keywords := by
  rw [parseQuery_keywords_eq, parseQuery_keywords_eq, h]

theorem parseQuery_filters_inv (raw : String) :
    (∀ kv ∈ (parseQuery raw).filters, FILTER_TOKENS.contains kv.1 = true
      ∧ ∀ c ∈ kv.2.data, jsIsSpace c = false)
    ∧ ((parseQuery raw).filters.map Prod.fst).Nodup := by
  rw [parseQuery_filters_eq raw FILTER_TOKENS]
  exact parse_fold_inv FILTER_TOKENS (scanTokens raw.data) ([], [])
    (scanTokens_all_good raw.data)
    (fun kv h => absurd h (List.not_mem_nil kv)) (by simp)

theorem parseQuery_trimmed_canon (raw : String) (vt : List String) :
    List.Chain' (fun a b => jsIsSpace a = false ∨ jsIsSpace b = false)
      (parseQuery raw vt).trimmed.data
    ∧ (∀ c ∈ (parseQuery raw vt).trimmed.data, jsIsSpace c = true → c = ' ')
    ∧ (∀ d ∈ (parseQuery raw vt).trimmed.data.head?, jsIsSpace d = false)
    ∧ (∀ d ∈ (parseQuery raw vt).trimmed.data.getLast?, jsIsSpace d = false) := by
  rw [parseQuery_trimmed_eq raw vt]
  exact trimmed_canon _

theorem trimmed_fixpoint {t : List Char}
    (hch : List.Chain' (fun a b => jsIsSpace a = false ∨ jsIsSpace b = false) t)
    (ho : ∀ c ∈ t, jsIsSpace c = true → c = ' ')
    (hhd : ∀ d ∈ t.head?, jsIsSpace d = false)
    (hlast : ∀ d ∈ t.getLast?, jsIsSpace d = false) :
    jsTrimL (collapseWs t) = t := by
  rw [show collapseWs t = t from collapse_id_canon t hch ho]
  exact jsTrimL_id hhd hlast

theorem trimmed_app_run {t : List Char} (j : Nat) (hne : t ≠ [])
    (hch : List.Chain' (fun a b => jsIsSpace a = false ∨ jsIsSpace b = false) t)
    (ho : ∀ c ∈ t, jsIsSpace c = true → c = ' ')
    (hhd : ∀ d ∈ t.head?, jsIsSpace d = false)
    (hlast : ∀ d ∈ t.getLast?, jsIsSpace d = false) :
    jsTrimL (collapseWs (t ++ ' ' :: List.replicate j ' ')) = t := by
  rw [show collapseWs (t ++ ' ' :: List.replicate j ' ') = t ++ [' ']
    from collapse_app_spaces t j hch ho hlast]
  exact jsTrimL_app_sp hne hhd hlast

theorem sortEntries_eq_nil {l : List (String × String)}
    (h : sortEntries l = []) : l = [] := by
  have hp := sortEntries_perm l
  rw [h] at hp
  have hlen := hp.length_eq
  simp only [List.length_nil] at hlen
  exact List.length_eq_zero.mp hlen.symm

theorem renderToks_ne_nil : ∀ (m : List Char × List Char)
    (rest : List (List Char × List Char)), renderToks (m :: rest) ≠ [] := by
  intro m rest
  obtain ⟨k, v⟩ := m
  cases rest with
  | nil =>
    show k ++ ':' :: v ≠ []
    simp
  | cons m2 r2 =>
    rw [renderToks_cons_cons]
    simp

theorem string_ne_iff {s : String} : s ≠ "" ↔ s.data ≠ [] := by
  constructor
  · intro h h2
    exact h (String.ext h2)
  · intro h h2
    subst h2
    exact h rfl

theorem serializeQuery_eq (pq : ParsedQuery) :
    serializeQuery pq
      = jsJoinSp (([pq.trimmed,
          jsJoinSp ((sortEntries pq.filters).map
            (fun e => e.1 ++ ":" ++ e.2))]).filter (fun s => !(s == ""))) := rfl

theorem parseQuery_of_pre_toks (s : String) (pre : List Char)
    (es : List (String × String)) (hne : es ≠ [])
    (hdata : s.data = pre ++ renderToks (es.map (fun e => (e.1.data, e.2.data))))
    (hpre1 : ':' ∉ pre) (hpre2 : pre = [] ∨ pre.getLast? = some ' ')
    (hes : ∀ e ∈ es, FILTER_TOKENS.contains e.1 = true
      ∧ toLowerL e.1.data = e.1.data ∧ stripAtHash e.2 = e.2
      ∧ GoodTok (e.1.data, e.2.data))
    (hnd : (es.map Prod.fst).Nodup) :
    (parseQuery s).filters = es
    ∧ (parseQuery s).trimmed
      = ⟨jsTrimL (collapseWs (pre ++ List.replicate (es.length - 1) ' '))⟩ := by
  have hgood : ∀ m ∈ es.map (fun e => (e.1.data, e.2.data)), GoodTok m := by
    intro m hm
    rw [List.mem_map] at hm
    obtain ⟨e, he, rfl⟩ := hm
    exact (hes e he).2.2.2
  have hscan : scanTokens s.data = es.map (fun e => (e.1.data, e.2.data)) := by
    rw [hdata, scanTokens_lead_skip pre _ hpre1 hpre2, scanTokens_chain _ hgood]
  have hfold : (scanTokens s.data).foldl (parseStep FILTER_TOKENS) ([], [])
      = (es.foldl (fun a e => setProp a e.1 e.2) [],
         [] ++ es.map (fun e => e.1.data ++ ':' :: e.2.data)) := by
    rw [hscan]
    exact parse_fold_on_tokens FILTER_TOKENS es ([], [])
      (fun e he => ⟨(hes e he).1, (hes e he).2.1, (hes e he).2.2.1⟩)
  have hfilters : (parseQuery s).filters = es := by
    rw [parseQuery_filters_eq s FILTER_TOKENS, hfold]
    show es.foldl (fun a e => setProp a e.1 e.2) [] = es
    rw [foldl_setProp_eq es [] (by simpa using hnd)]
    rfl
  refine ⟨hfilters, ?_⟩
  have hremoved : ((scanTokens s.data).foldl (parseStep FILTER_TOKENS)
        ([], [])).2
      = (es.map (fun e => (e.1.data, e.2.data))).map
          (fun m => m.1 ++ ':' :: m.2) := by
    rw [hfold]
    show es.map (fun e => e.1.data ++ ':' :: e.2.data) = _
    rw [List.map_map]
    rfl
  have hrem2 : (((scanTokens s.data).foldl
        (parseStep FILTER_TOKENS) ([], [])).2).foldl replaceFirst s.data
      = pre ++ List.replicate (es.length - 1) ' ' := by
    rw [hremoved, hdata]
    rw [removeAll_chain (es.map (fun e => (e.1.data, e.2.data))) pre
      (by
        cases es with
        | nil => exact absurd rfl hne
        | cons a l => simp)
      hgood hpre1 hpre2]
    rw [List.length_map]
  rw [parseQuery_trimmed_eq s FILTER_TOKENS, hrem2]

/-! ## Claim C1: structure of the merged result list -/

/-- C1. Every invocation that completes without error and without a
cache hit returns the (possibly capped) concatenation of the local
results, in their locally computed order, with a remote tail that is
exactly the deduplicated rank-sorted server results filtered against
local dedup keys: the tail is sorted by non-increasing score, contains
no two items with the same dedup key, shares no dedup key with any
local result, and every tail item comes from the deduplicated server
ranking. -/
theorem executeSearch_merge_structure (cache : CacheMap) (now : Nat)
    (p : SearchPayload) (res : List Item) (tr : SearchTrace) (ca : CacheMap)
    (h : executeSearchModel cache now p = ⟨SearchOutcome.ok res false, tr, ca⟩) :
    ∃ cs tail,
      runClientSearch p.chats p.users (jsToLower p.parsedQuery.trimmed)
        p.loggedUserZuid = Except.ok cs ∧
      tail = (deduplicateBy (coreServerResults p cs) p.getDedupKey).filter
        (fun s => !(cs.clientResults.any
          (fun c => p.getDedupKey c == p.getDedupKey s))) ∧
      res = jsTruncate p.maxResults (cs.clientResults ++ tail) ∧
      List.Sorted scoreGE tail ∧
      List.Pairwise (fun a b => p.getDedupKey a ≠ p.getDedupKey b) tail ∧
      (∀ s ∈ tail, ∀ c ∈ cs.clientResults, p.getDedupKey c ≠ p.getDedupKey s) ∧
      (∀ s ∈ tail, s ∈ deduplicateBy (coreServerResults p cs) p.getDedupKey) := by
  obtain ⟨cs, hcs, hres, _⟩ := executeSearchModel_ok_client cache now p res tr ca h
  refine ⟨cs, coreTail p cs, hcs, rfl, hres, ?_, ?_, ?_, ?_⟩
  · exact List.Pairwise.filter _ (deduplicateBy_sorted _ _)
  · exact List.Pairwise.filter _ (deduplicateBy_keys_pairwise _ _)
  · intro s hs c hc
    have hpred := List.of_mem_filter hs
    simp only [Bool.not_eq_true'] at hpred
    have hall := List.any_eq_false.mp hpred c hc
    simpa [beq_iff_eq] using hall
  · intro s hs
    exact List.mem_of_mem_filter hs

/-- Witness for C1 at the concrete fixture invocation (one local chat
match, an empty remote stage). -/
theorem executeSearch_merge_structure_witness :
    ∃ cs tail,
      runClientSearch wPayload.chats wPayload.users
        (jsToLower wPayload.parsedQuery.trimmed) wPayload.loggedUserZuid
        = Except.ok cs ∧
      tail = (deduplicateBy (coreServerResults wPayload cs)
          wPayload.getDedupKey).filter
        (fun s => !(cs.clientResults.any
          (fun c => wPayload.getDedupKey c == wPayload.getDedupKey s))) ∧
      [wChatMapped] = jsTruncate wPayload.maxResults (cs.clientResults ++ tail) ∧
      List.Sorted scoreGE tail ∧
      List.Pairwise (fun a b => wPayload.getDedupKey a ≠ wPayload.getDedupKey b) tail ∧
      (∀ s ∈ tail, ∀ c ∈ cs.clientResults,
        wPayload.getDedupKey c ≠ wPayload.getDedupKey s) ∧
      (∀ s ∈ tail, s ∈ deduplicateBy (coreServerResults wPayload cs)
        wPayload.getDedupKey) :=
  executeSearch_merge_structure [] 5 wPayload [wChatMapped]
    { exclusionsBuilt := true, localRan := true, mergedRan := true,
      calledModules := [("globalsearch")], enrichedChats := [wChat],
      enrichedUsers := [] }
    [(("x"), ⟨[wChatMapped], 5, ("all")⟩)] rfl

/-- **Claim C2 (amended).** For every raw input string whose parsed phrase
contains no colon and whose parsed filter values are nonempty and do not
begin with `@` or `#`, applying `parseQuery`, then `serializeQuery`, then
`parseQuery` again yields a `ParsedQuery` whose filters mapping agrees with
the first parse on every key and whose keywords sequence equals that of the
first parse. (The unamended claim, over all raw inputs, is refuted by the
counterexample theorem.) -/
theorem parse_serialize_round_trip (raw : String)
    (hcolon : ':' ∉ (parseQuery raw).trimmed.data)
    (hvals : ∀ kv ∈ (parseQuery raw).filters,
      kv.2 ≠ "" ∧ kv.2.data.head? ≠ some '@' ∧ kv.2.data.head? ≠ some '#') :
    (∀ k, getProp (parseQuery (serializeQuery (parseQuery raw))).filters k
        = getProp (parseQuery raw).filters k)
    ∧ (parseQuery (serializeQuery (parseQuery raw))).keywords
      = (parseQuery raw).keywords := by
  obtain ⟨hkv, hnd⟩ := parseQuery_filters_inv raw
  obtain ⟨hch, ho, hhd, hlast⟩ := parseQuery_trimmed_canon raw FILTER_TOKENS
  have hperm := sortEntries_perm (parseQuery raw).filters
  by_cases hesn : sortEntries (parseQuery raw).filters = []
  · have hfnil : (parseQuery raw).filters = [] := sortEntries_eq_nil hesn
    by_cases ht : (parseQuery raw).trimmed = ""
    · have hser : serializeQuery (parseQuery raw) = "" := by
        rw [serializeQuery_eq, hesn, ht]
        rfl
      have hf2 : (parseQuery ("")).filters = [] := rfl
      have ht2 : (parseQuery ("")).trimmed = "" := rfl
      rw [hser]
      constructor
      · intro k
        rw [hf2, hfnil]
      · refine parseQuery_keywords_of_trimmed ?_
        rw [ht2, ht]
    · have hser : serializeQuery (parseQuery raw) = (parseQuery raw).trimmed := by
        rw [serializeQuery_eq, hesn]
        simp [List.filter, beq_eq_false_iff_ne.mpr ht, jsJoinSp]
      have hscan2 : scanTokens (parseQuery raw).trimmed.data = [] :=
        scanTokens_nil_of_nocolon hcolon
      have hf2 : (parseQuery ((parseQuery raw).trimmed)).filters = [] := by
        rw [parseQuery_filters_eq _ FILTER_TOKENS, hscan2]
        rfl
      have ht2 : (parseQuery ((parseQuery raw).trimmed)).trimmed
          = (parseQuery raw).trimmed := by
        rw [parseQuery_trimmed_eq _ FILTER_TOKENS, hscan2]
        refine String.ext ?_
        show jsTrimL (collapseWs (parseQuery raw).trimmed.data)
          = (parseQuery raw).trimmed.data
        exact trimmed_fixpoint hch ho hhd hlast
      rw [hser]
      exact ⟨fun k => by rw [hf2, hfnil], parseQuery_keywords_of_trimmed ht2⟩
  · have hesfacts : ∀ e ∈ sortEntries (parseQuery raw).filters,
        FILTER_TOKENS.contains e.1 = true ∧ toLowerL e.1.data = e.1.data
        ∧ stripAtHash e.2 = e.2 ∧ GoodTok (e.1.data, e.2.data) := by
      intro e he
      have hmem : e ∈ (parseQuery raw).filters := hperm.mem_iff.mp he
      obtain ⟨hct, hvs⟩ := hkv e hmem
      obtain ⟨hv1, hv2, hv3⟩ := hvals e hmem
      have hkmem : e.1 ∈ FILTER_TOKENS := List.elem_iff.mp hct
      obtain ⟨hlow, hkne, hkw⟩ := filter_tokens_facts e.1 hkmem
      exact ⟨hct, hlow, stripAtHash_eq_self hv2 hv3, hkne, hkw,
        string_ne_iff.mp hv1, hvs⟩
    have hndes : ((sortEntries (parseQuery raw).filters).map Prod.fst).Nodup :=
      ((hperm.map Prod.fst).nodup_iff).mpr hnd
    have hfdata : (jsJoinSp ((sortEntries (parseQuery raw).filters).map
        (fun e => e.1 ++ ":" ++ e.2))).data
        = renderToks ((sortEntries (parseQuery raw).filters).map
            (fun e => (e.1.data, e.2.data))) :=
      jsJoinSp_render_data _
    obtain ⟨a0, l0, hal⟩ : ∃ a l,
        sortEntries (parseQuery raw).filters = a :: l := by
      rcases hq : sortEntries (parseQuery raw).filters with _ | ⟨a, l⟩
      · exact absurd hq hesn
      · exact ⟨a, l, rfl⟩
    have hfne : jsJoinSp ((sortEntries (parseQuery raw).filters).map
        (fun e => e.1 ++ ":" ++ e.2)) ≠ "" := by
      rw [string_ne_iff, hfdata, hal, List.map_cons]
      exact renderToks_ne_nil _ _
    by_cases ht : (parseQuery raw).trimmed = ""
    · have hser : serializeQuery (parseQuery raw)
          = jsJoinSp ((sortEntries (parseQuery raw).filters).map
              (fun e => e.1 ++ ":" ++ e.2)) := by
        rw [serializeQuery_eq, ht]
        simp [List.filter, beq_eq_false_iff_ne.mpr hfne, jsJoinSp]
      obtain ⟨hf2, ht2⟩ := parseQuery_of_pre_toks
        (jsJoinSp ((sortEntries (parseQuery raw).filters).map
          (fun e => e.1 ++ ":" ++ e.2)))
        [] (sortEntries (parseQuery raw).filters) hesn
        (by
          rw [hfdata]
          rfl)
        (by simp) (Or.inl rfl) hesfacts hndes
      rw [hser]
      constructor
      · intro k
        rw [hf2]
        exact getProp_eq_of_perm hperm hndes k
      · refine parseQuery_keywords_of_trimmed ?_
        rw [ht2, ht]
        refine String.ext ?_
        show jsTrimL (collapseWs (List.replicate
          ((sortEntries (parseQuery raw).filters).length - 1) ' ')) = []
        exact trim_collapse_replicate _
    · have htne : (parseQuery raw).trimmed.data ≠ [] := string_ne_iff.mp ht
      have hser : serializeQuery (parseQuery raw)
          = (parseQuery raw).trimmed ++ " "
            ++ jsJoinSp ((sortEntries (parseQuery raw).filters).map
                (fun e => e.1 ++ ":" ++ e.2)) := by
        rw [serializeQuery_eq]
        simp [List.filter, beq_eq_false_iff_ne.mpr ht,
          beq_eq_false_iff_ne.mpr hfne, jsJoinSp]
      obtain ⟨hf2, ht2⟩ := parseQuery_of_pre_toks
        ((parseQuery raw).trimmed ++ " "
          ++ jsJoinSp ((sortEntries (parseQuery raw).filters).map
              (fun e => e.1 ++ ":" ++ e.2)))
        ((parseQuery raw).trimmed.data ++ [' '])
        (sortEntries (parseQuery raw).filters) hesn
        (by rw [data_appendS, data_appendS, hfdata])
        (by
          intro hmem
          rcases List.mem_append.mp hmem with h | h
          · exact hcolon h
          · simp at h)
        (Or.inr (List.getLast?_concat _)) hesfacts hndes
      rw [hser]
      refine ⟨fun k => ?_, ?_⟩
      · rw [hf2]
        exact getProp_eq_of_perm hperm hndes k
      · refine parseQuery_keywords_of_trimmed ?_
        rw [ht2]
        refine String.ext ?_
        show jsTrimL (collapseWs (((parseQuery raw).trimmed.data ++ [' '])
            ++ List.replicate
              ((sortEntries (parseQuery raw).filters).length - 1) ' '))
          = (parseQuery raw).trimmed.data
        rw [show ((parseQuery raw).trimmed.data ++ [' '])
            ++ List.replicate
              ((sortEntries (parseQuery raw).filters).length - 1) ' '
            = (parseQuery raw).trimmed.data ++ ' ' :: List.replicate
              ((sortEntries (parseQuery raw).filters).length - 1) ' '
          from by simp]
        exact trimmed_app_run _ htne hch ho hhd hlast

/-- Witness for the amended C2 theorem: `"hello from:alice"` satisfies the
hypotheses (colon-free phrase `"hello"`, filter value `"alice"` nonempty
with no leading mark), and the round trip preserves the `from` lookup and
the keywords. -/
theorem parse_serialize_round_trip_witness :
    (':' ∉ (parseQuery ("hello from:alice")).trimmed.data
      ∧ ∀ kv ∈ (parseQuery ("hello from:alice")).filters,
          kv.2 ≠ "" ∧ kv.2.data.head? ≠ some '@' ∧ kv.2.data.head? ≠ some '#')
    ∧ getProp
        (parseQuery (serializeQuery (parseQuery ("hello from:alice")))).filters
        ("from")
      = getProp (parseQuery ("hello from:alice")).filters ("from")
    ∧ (parseQuery (serializeQuery (parseQuery ("hello from:alice")))).keywords
      = (parseQuery ("hello from:alice")).keywords :=
  ⟨⟨by decide, by decide⟩,
   (parse_serialize_round_trip ("hello from:alice") (by decide)
     (by decide)).1 ("from"),
   (parse_serialize_round_trip ("hello from:alice") (by decide)
     (by decide)).2⟩

end AdvSearch
